import Mathlib

/-!
Verification development for the description-to-graph ingestion pipeline
(`descriptions_to_graph_generic.py`).

The pipeline reads free-text description rows, extracts grouped fields with
ordered regex pattern lists from a rules document, and performs idempotent
MERGE upserts of Record, Person, Organization and Location nodes plus typed
edges into a graph store.

Modelling decisions:
- Regex patterns are embedded by their observable semantics: a `Pattern`
  carries a function `search : String → Option (Option String)`.
  `none` means `re.search` found no match; `some none` means the pattern
  matched but the call `m.group` with key value fails (the pattern defines
  no capture group named value, or the group did not participate), which in
  Python raises an uncaught exception; `some (some raw)` means the pattern
  matched and the value group captured `raw`.  The `re.IGNORECASE` flag of
  the source is part of this abstract semantics.
- `datetime()` is modelled by a logical clock on the graph state; every
  issued write happens at the current clock value and advances the clock.
- A Cypher `MERGE` is modelled by `mergeBy`: if any element of the stored
  list matches the merge pattern, the ON MATCH update is applied to every
  matching element, otherwise a node or edge built by the ON CREATE clause
  is appended.
- Fallible code (the uncaught exception from a missing value group) is
  modelled with `Except Unit`.
-/

namespace DescGraph

/-- Strip characters satisfying `p` from both ends of a string
(the common core of the Python `str.strip` variants). -/
def stripEnds (p : Char → Bool) (s : String) : String :=
  ⟨((s.data.dropWhile p).reverse.dropWhile p).reverse⟩

/-- Python `str.strip()` with no argument: remove surrounding whitespace. -/
def pyStrip (s : String) : String :=
  stripEnds (fun c => c.isWhitespace) s

/-- The second strip of the source, `strip` with the four characters
double quote, comma, semicolon and space. -/
def stripQuoteSep (s : String) : String :=
  stripEnds (fun c => c == '"' || c == ',' || c == ';' || c == ' ') s

/-- `clean_str` from the source: `None` stays `None`; otherwise trim the
string and turn an empty result into `None`.  (The pandas NaN branch of the
source concerns float cells only and is outside the string model.) -/
def clean_str : Option String → Option String
  | none => none
  | some v => let s := pyStrip v; if s = "" then none else some s

/-- Abstract semantics of one regex pattern from the rules document,
applied with `re.IGNORECASE` as in the source.  See the module docstring
for the meaning of the three result shapes. -/
structure Pattern where
  search : String → Option (Option String)

/-- Python dict lookup `d.get(k)` on an association list. -/
def dictGet (k : String) : List (String × α) → Option α
  | [] => none
  | (k', v) :: rest => if k' = k then some v else dictGet k rest

/-- Python dict assignment `d[k] = v` on an association list: replace the
value at an existing key in place, else append the binding. -/
def dictSet (k : String) (v : α) : List (String × α) → List (String × α)
  | [] => [(k, v)]
  | (k', v') :: rest => if k' = k then (k, v) :: rest else (k', v') :: dictSet k v rest

/-- The inner pattern loop of `extract_fields`: try the patterns of one
field in declared order.  A match with a failing value-group lookup raises
(`Except.error`); a capture that strips to the empty string does not stop
the loop; the first non-empty stripped capture is returned. -/
def extract_field_value (text : String) : List Pattern → Except Unit (Option String)
  | [] => .ok none
  | p :: rest =>
    match p.search text with
    | none => extract_field_value text rest
    | some none => .error ()
    | some (some raw) =>
      let val := stripQuoteSep (pyStrip raw)
      if val = "" then extract_field_value text rest else .ok (some val)

/-- The middle loop of `extract_fields`: build the output dict of one
entity group, in field order, keeping only fields with a found value. -/
def extract_group (text : String) :
    List (String × List Pattern) → Except Unit (List (String × String))
  | [] => .ok []
  | (fname, pats) :: rest => do
    let v ← extract_field_value text pats
    let restOut ← extract_group text rest
    match v with
    | some val => .ok ((fname, val) :: restOut)
    | none => .ok restOut

/-- The outer loop of `extract_fields` over entity groups, threading the
result dict that starts as person and organization bound to empty dicts. -/
def extract_fields_aux (text : String) :
    List (String × List (String × List Pattern)) →
    List (String × List (String × String)) →
    Except Unit (List (String × List (String × String)))
  | [], acc => .ok acc
  | (g, cfg) :: rest, acc => do
    let out ← extract_group text cfg
    extract_fields_aux text rest (dictSet g out acc)

/-- `extract_fields` from the source: apply every configured group of
patterns to the text, starting from the initial two-group result dict. -/
def extract_fields (text : String)
    (field_patterns : List (String × List (String × List Pattern))) :
    Except Unit (List (String × List (String × String))) :=
  extract_fields_aux text field_patterns [("person", []), ("organization", [])]

/-! ## Graph data model

Nodes and edges carry exactly the properties the Cypher statements of the
source write.  `datetime()` values are drawn from a logical clock. -/

/-- `SOURCE_NAME` from the source: the name of the Excel input file. -/
def SOURCE_NAME : String := "descriptions_only.xlsx"

/-- A node carrying the Record label (the label text itself is config and
does not influence any behaviour modelled here). -/
structure RecordNode where
  record_id : String
  description : String
  row_index : Nat
  source_file : String
  created_at : Nat
  updated_at : Nat
deriving DecidableEq, Repr

/-- A node with the Entity label: the discriminant `entity_type` plus the
union of all properties any of the three upserts writes.  Properties a
given upsert does not mention stay `none`. -/
structure EntityNode where
  entity_type : String
  canonical_text : String
  name : Option String
  dob : Option String
  citizenship : Option String
  place_of_birth : Option String
  phone_number : Option String
  address : Option String
  passport_number : Option String
  flight_number : Option String
  departure_location : Option String
  arrival_location : Option String
  arrest_location : Option String
  arrival_date : Option String
  departure_date : Option String
  date_generic : Option String
  money : Option String
  license_plate : Option String
  drivers_license : Option String
  source : Option String
  created_at : Nat
  updated_at : Nat
deriving DecidableEq, Repr

/-- Reference to an edge endpoint: a Record node (by `record_id`) or an
Entity node (by its merge key). -/
inductive NodeRef where
  | recordNode (record_id : String)
  | entityNode (entity_type : String) (canonical_text : String)
deriving DecidableEq, Repr

/-- A directed typed edge with the properties the edge MERGEs may write.
The DESCRIBES merge writes none of them, so they are optional. -/
structure Edge where
  src : NodeRef
  rel_type : String
  dst : NodeRef
  source : Option String
  first_seen : Option Nat
  last_seen : Option Nat
deriving DecidableEq, Repr

/-- The graph store state: all nodes and edges plus the logical clock
supplying `datetime()` values.  Every issued write advances the clock. -/
structure GraphState where
  records : List RecordNode
  entities : List EntityNode
  edges : List Edge
  clock : Nat
deriving DecidableEq, Repr

/-- The empty store, before any record is processed. -/
def emptyGraph : GraphState := ⟨[], [], [], 0⟩

/-- Cypher MERGE against a stored list: if any element matches the merge
pattern `hit`, apply the ON MATCH clause `upd` to every matching element;
otherwise append the element `mk` built by the ON CREATE clause. -/
def mergeBy (hit : α → Bool) (upd : α → α) (mk : α) (l : List α) : List α :=
  if l.any hit then l.map (fun x => if hit x then upd x else x) else l ++ [mk]

/-! ## Merge patterns used by the Cypher statements -/

/-- Merge pattern of `upsert_record`: match by `record_id`. -/
def recordHit (rid : String) (r : RecordNode) : Bool :=
  decide (r.record_id = rid)

/-- Merge pattern of `upsert_person`: entity_type PERSON and the name as
canonical text. -/
def personHit (n : String) (e : EntityNode) : Bool :=
  decide (e.entity_type = "PERSON" ∧ e.canonical_text = n)

/-- Merge pattern of `upsert_organization`: entity_type ORG. -/
def orgHit (n : String) (e : EntityNode) : Bool :=
  decide (e.entity_type = "ORG" ∧ e.canonical_text = n)

/-- Merge pattern of `upsert_location`: entity_type GPE. -/
def locHit (n : String) (e : EntityNode) : Bool :=
  decide (e.entity_type = "GPE" ∧ e.canonical_text = n)

/-- Merge pattern of the DESCRIBES edge of `connect_record_to_person`. -/
def describesHit (rid n : String) (g : Edge) : Bool :=
  decide (g.src = .recordNode rid ∧ g.rel_type = "DESCRIBES" ∧
    g.dst = .entityNode "PERSON" n)

/-- Merge pattern of the ASSOCIATED_WITH_ORG edge of
`connect_person_to_org`. -/
def assocHit (p o : String) (g : Edge) : Bool :=
  decide (g.src = .entityNode "PERSON" p ∧ g.rel_type = "ASSOCIATED_WITH_ORG" ∧
    g.dst = .entityNode "ORG" o)

/-- Merge pattern of a location edge of `connect_person_to_locations`,
with the relationship type taken from the rules mapping. -/
def locEdgeHit (p rt l : String) (g : Edge) : Bool :=
  decide (g.src = .entityNode "PERSON" p ∧ g.rel_type = rt ∧
    g.dst = .entityNode "GPE" l)

/-! ## Upsert operations -/

/-- ON CREATE clause of `upsert_record`. -/
def recordOnCreate (now : Nat) (rid : String) (rowIndex : Nat) (description : String) :
    RecordNode :=
  { record_id := rid, description := description, row_index := rowIndex,
    source_file := SOURCE_NAME, created_at := now, updated_at := now }

/-- ON MATCH clause of `upsert_record`: overwrite the description and
refresh `updated_at`, touching nothing else. -/
def recordOnMatch (now : Nat) (description : String) (r : RecordNode) : RecordNode :=
  { r with description := description, updated_at := now }

/-- `upsert_record` from the source: MERGE a Record node by `record_id`. -/
def upsert_record (s : GraphState) (record_id : String) (row_index : Nat)
    (description : String) : GraphState :=
  { s with
    records := mergeBy (recordHit record_id)
      (recordOnMatch s.clock description)
      (recordOnCreate s.clock record_id row_index description)
      s.records,
    clock := s.clock + 1 }

/-- The params dict of `upsert_person`: each extracted person field run
through `clean_str`. -/
structure PersonParams where
  dob : Option String
  citizenship : Option String
  place_of_birth : Option String
  phone_number : Option String
  address : Option String
  passport_number : Option String
  flight_number : Option String
  departure_location : Option String
  arrival_location : Option String
  arrest_location : Option String
  arrival_date : Option String
  departure_date : Option String
  date_generic : Option String
  money : Option String
  license_plate : Option String
  drivers_license : Option String
deriving DecidableEq, Repr

/-- Build the `upsert_person` params from the extracted person fields. -/
def personParams (pf : List (String × String)) : PersonParams :=
  { dob := clean_str (dictGet "dob" pf),
    citizenship := clean_str (dictGet "citizenship" pf),
    place_of_birth := clean_str (dictGet "place_of_birth" pf),
    phone_number := clean_str (dictGet "phone_number" pf),
    address := clean_str (dictGet "address" pf),
    passport_number := clean_str (dictGet "passport_number" pf),
    flight_number := clean_str (dictGet "flight_number" pf),
    departure_location := clean_str (dictGet "departure_location" pf),
    arrival_location := clean_str (dictGet "arrival_location" pf),
    arrest_location := clean_str (dictGet "arrest_location" pf),
    arrival_date := clean_str (dictGet "arrival_date" pf),
    departure_date := clean_str (dictGet "departure_date" pf),
    date_generic := clean_str (dictGet "date_generic" pf),
    money := clean_str (dictGet "money" pf),
    license_plate := clean_str (dictGet "license_plate" pf),
    drivers_license := clean_str (dictGet "drivers_license" pf) }

/-- Cypher `coalesce` restricted to two arguments as used in the source. -/
def coalesce (a b : Option String) : Option String :=
  match a with
  | some x => some x
  | none => b

/-- ON CREATE clause of `upsert_person`: write every param plus
provenance and both timestamps. -/
def personOnCreate (now : Nat) (name : String) (q : PersonParams) : EntityNode :=
  { entity_type := "PERSON", canonical_text := name,
    name := some name, dob := q.dob, citizenship := q.citizenship,
    place_of_birth := q.place_of_birth, phone_number := q.phone_number,
    address := q.address, passport_number := q.passport_number,
    flight_number := q.flight_number, departure_location := q.departure_location,
    arrival_location := q.arrival_location, arrest_location := q.arrest_location,
    arrival_date := q.arrival_date, departure_date := q.departure_date,
    date_generic := q.date_generic, money := q.money,
    license_plate := q.license_plate, drivers_license := q.drivers_license,
    source := some "structured_text", created_at := now, updated_at := now }

/-- ON MATCH clause of `upsert_person`: coalesce every attribute with the
stored value first and always refresh `updated_at`. -/
def personOnMatch (now : Nat) (q : PersonParams) (e : EntityNode) : EntityNode :=
  { e with
    dob := coalesce e.dob q.dob,
    citizenship := coalesce e.citizenship q.citizenship,
    place_of_birth := coalesce e.place_of_birth q.place_of_birth,
    phone_number := coalesce e.phone_number q.phone_number,
    address := coalesce e.address q.address,
    passport_number := coalesce e.passport_number q.passport_number,
    flight_number := coalesce e.flight_number q.flight_number,
    departure_location := coalesce e.departure_location q.departure_location,
    arrival_location := coalesce e.arrival_location q.arrival_location,
    arrest_location := coalesce e.arrest_location q.arrest_location,
    arrival_date := coalesce e.arrival_date q.arrival_date,
    departure_date := coalesce e.departure_date q.departure_date,
    date_generic := coalesce e.date_generic q.date_generic,
    money := coalesce e.money q.money,
    license_plate := coalesce e.license_plate q.license_plate,
    drivers_license := coalesce e.drivers_license q.drivers_license,
    updated_at := now }

/-- `upsert_person` from the source: resolve the identity from the name
field; without a name return immediately with no write.  Otherwise MERGE
by the PERSON merge key and return the name. -/
def upsert_person (s : GraphState) (person_fields : List (String × String)) :
    GraphState × Option String :=
  match clean_str (dictGet "name" person_fields) with
  | none => (s, none)
  | some name =>
    ({ s with
        entities := mergeBy (personHit name)
          (personOnMatch s.clock (personParams person_fields))
          (personOnCreate s.clock name (personParams person_fields))
          s.entities,
        clock := s.clock + 1 }, some name)

/-- ON CREATE clause of `upsert_organization`. -/
def orgOnCreate (now : Nat) (name : String) (address : Option String) : EntityNode :=
  { entity_type := "ORG", canonical_text := name,
    name := some name, dob := none, citizenship := none, place_of_birth := none,
    phone_number := none, address := address, passport_number := none,
    flight_number := none, departure_location := none, arrival_location := none,
    arrest_location := none, arrival_date := none, departure_date := none,
    date_generic := none, money := none, license_plate := none,
    drivers_license := none, source := some "structured_text",
    created_at := now, updated_at := now }

/-- ON MATCH clause of `upsert_organization`: coalesce the address and
refresh `updated_at`. -/
def orgOnMatch (now : Nat) (address : Option String) (e : EntityNode) : EntityNode :=
  { e with address := coalesce e.address address, updated_at := now }

/-- `upsert_organization` from the source. -/
def upsert_organization (s : GraphState) (org_fields : List (String × String)) :
    GraphState × Option String :=
  match clean_str (dictGet "name" org_fields) with
  | none => (s, none)
  | some name =>
    let address := clean_str (dictGet "address" org_fields)
    ({ s with
        entities := mergeBy (orgHit name)
          (orgOnMatch s.clock address)
          (orgOnCreate s.clock name address)
          s.entities,
        clock := s.clock + 1 }, some name)

/-- ON CREATE clause of `upsert_location`. -/
def locOnCreate (now : Nat) (name : String) : EntityNode :=
  { entity_type := "GPE", canonical_text := name,
    name := some name, dob := none, citizenship := none, place_of_birth := none,
    phone_number := none, address := none, passport_number := none,
    flight_number := none, departure_location := none, arrival_location := none,
    arrest_location := none, arrival_date := none, departure_date := none,
    date_generic := none, money := none, license_plate := none,
    drivers_license := none, source := some "structured_text",
    created_at := now, updated_at := now }

/-- ON MATCH clause of `upsert_location`: only `updated_at` is refreshed. -/
def locOnMatch (now : Nat) (e : EntityNode) : EntityNode :=
  { e with updated_at := now }

/-- `upsert_location` from the source: guard against an empty name (no
write at all in that case), else MERGE by the GPE merge key. -/
def upsert_location (s : GraphState) (name : String) : GraphState :=
  if name = "" then s
  else
    { s with
      entities := mergeBy (locHit name)
        (locOnMatch s.clock)
        (locOnCreate s.clock name)
        s.entities,
      clock := s.clock + 1 }

/-! ## Edge upserts

Each connect function first issues the MATCH clauses of its Cypher
statement; if an endpoint is missing the statement writes nothing, though
the write is still issued (the clock advances either way). -/

/-- The edge built by the bare DESCRIBES MERGE: the statement carries no
ON CREATE clause, so only the pattern parts exist and every property is
absent. -/
def describesOnCreate (record_id person_name : String) : Edge :=
  { src := .recordNode record_id, rel_type := "DESCRIBES",
    dst := .entityNode "PERSON" person_name,
    source := none, first_seen := none, last_seen := none }

/-- Shared ON MATCH clause of the ASSOCIATED_WITH_ORG and location edge
MERGEs: refresh only `last_seen`. -/
def edgeOnMatch (now : Nat) (g : Edge) : Edge :=
  { g with last_seen := some now }

/-- ON CREATE clause of the ASSOCIATED_WITH_ORG edge MERGE. -/
def assocOnCreate (now : Nat) (person_name org_name : String) : Edge :=
  { src := .entityNode "PERSON" person_name,
    rel_type := "ASSOCIATED_WITH_ORG",
    dst := .entityNode "ORG" org_name,
    source := some "structured_text",
    first_seen := some now, last_seen := some now }

/-- ON CREATE clause of a location edge MERGE of
`connect_person_to_locations`. -/
def locEdgeOnCreate (now : Nat) (person_name rel_type loc_name : String) : Edge :=
  { src := .entityNode "PERSON" person_name, rel_type := rel_type,
    dst := .entityNode "GPE" loc_name,
    source := some "structured_text",
    first_seen := some now, last_seen := some now }

/-- `connect_record_to_person` from the source: MATCH both endpoints and
MERGE the DESCRIBES edge.  The statement has no ON CREATE and no ON MATCH
clause, so no edge property is ever written. -/
def connect_record_to_person (s : GraphState) (record_id person_name : String) :
    GraphState :=
  if s.records.any (recordHit record_id) && s.entities.any (personHit person_name) then
    { s with
      edges := mergeBy (describesHit record_id person_name) id
        (describesOnCreate record_id person_name) s.edges,
      clock := s.clock + 1 }
  else { s with clock := s.clock + 1 }

/-- `connect_person_to_org` from the source: MERGE the
ASSOCIATED_WITH_ORG edge; ON CREATE set source and both seen timestamps,
ON MATCH refresh only `last_seen`. -/
def connect_person_to_org (s : GraphState) (person_name org_name : String) :
    GraphState :=
  if s.entities.any (personHit person_name) && s.entities.any (orgHit org_name) then
    { s with
      edges := mergeBy (assocHit person_name org_name)
        (edgeOnMatch s.clock)
        (assocOnCreate s.clock person_name org_name) s.edges,
      clock := s.clock + 1 }
  else { s with clock := s.clock + 1 }

/-- The edge write of one iteration of the `connect_person_to_locations`
loop, with the relationship type drawn from the rules mapping.  ON CREATE
set source and both seen timestamps, ON MATCH refresh only `last_seen`. -/
def connect_location_edge (s : GraphState) (person_name rel_type loc_name : String) :
    GraphState :=
  if s.entities.any (personHit person_name) && s.entities.any (locHit loc_name) then
    { s with
      edges := mergeBy (locEdgeHit person_name rel_type loc_name)
        (edgeOnMatch s.clock)
        (locEdgeOnCreate s.clock person_name rel_type loc_name) s.edges,
      clock := s.clock + 1 }
  else { s with clock := s.clock + 1 }

/-- `connect_person_to_locations` from the source: for every pair of the
location relationship mapping whose field has a non-empty cleaned value in
the extracted person fields, first upsert the Location entity, then merge
the typed Person to Location edge. -/
def connect_person_to_locations (s : GraphState)
    (location_rel_map : List (String × String))
    (person_name : String) (person_fields : List (String × String)) : GraphState :=
  match location_rel_map with
  | [] => s
  | (field_key, rel_type) :: rest =>
    match clean_str (dictGet field_key person_fields) with
    | none => connect_person_to_locations s rest person_name person_fields
    | some loc_name =>
      connect_person_to_locations
        (connect_location_edge (upsert_location s loc_name) person_name rel_type loc_name)
        rest person_name person_fields

/-! ## Main pipeline -/

/-- The rules document as the core consumes it: the record id prefix, the
ordered grouped pattern lists, and the location relationship mapping. -/
structure Rules where
  record_id_prefix : String
  field_patterns : List (String × List (String × List Pattern))
  location_relationships : List (String × String)

/-- The body of the row loop of `main`: skip rows whose description cleans
to nothing; upsert the Record; extract fields (a failing extraction aborts
the run); upsert Person and Organization when their groups are non-empty;
when a Person identity was resolved, connect the record, the locations,
and (when an Organization identity was resolved too) the organization. -/
def process_row (ru : Rules) (idx : Nat) (desc : String) (s : GraphState) :
    Except Unit GraphState :=
  match clean_str (some desc) with
  | none => .ok s
  | some description =>
    let record_id := ru.record_id_prefix ++ toString (idx + 1)
    let s1 := upsert_record s record_id (idx + 1) description
    match extract_fields description ru.field_patterns with
    | .error e => .error e
    | .ok fields =>
      let pf := (dictGet "person" fields).getD []
      let og := (dictGet "organization" fields).getD []
      let sp := if pf = [] then (s1, none) else upsert_person s1 pf
      let so := if og = [] then (sp.1, none) else upsert_organization sp.1 og
      match sp.2 with
      | none => .ok so.1
      | some person_name =>
        let s4 := connect_record_to_person so.1 record_id person_name
        let s5 := connect_person_to_locations s4 ru.location_relationships
          person_name pf
        match so.2 with
        | none => .ok s5
        | some org_name => .ok (connect_person_to_org s5 person_name org_name)

/-- The row loop of `main` over the remaining rows, starting at row index
`idx`.  The DataFrame index is the positional row number, so indices are
consecutive. -/
def process_rows (ru : Rules) : List String → Nat → GraphState →
    Except Unit GraphState
  | [], _, s => .ok s
  | d :: rest, idx, s =>
    match process_row ru idx d s with
    | .error e => .error e
    | .ok s' => process_rows ru rest (idx + 1) s'

/-- One full run of `main` over an input sequence of description cells,
against an initial store state. -/
def runPipeline (ru : Rules) (rows : List String) (s : GraphState) :
    Except Unit GraphState :=
  process_rows ru rows 0 s

/-- Decidable equality of run results, for evaluating concrete runs. -/
instance instDecEqExcept {ε α : Type} [DecidableEq ε] [DecidableEq α] :
    DecidableEq (Except ε α) := fun x y =>
  match x, y with
  | .error a, .error b =>
    if h : a = b then isTrue (by rw [h]) else isFalse (fun he => h (Except.error.inj he))
  | .ok a, .ok b =>
    if h : a = b then isTrue (by rw [h]) else isFalse (fun he => h (Except.ok.inj he))
  | .error _, .ok _ => isFalse (fun he => Except.noConfusion he)
  | .ok _, .error _ => isFalse (fun he => Except.noConfusion he)

/-- Identity resolution for a group as `main` performs it: the upsert is
invoked only on a non-empty group dict, and inside it the identity is the
cleaned name field. -/
def resolvedName (fields : List (String × String)) : Option String :=
  if fields = [] then none else clean_str (dictGet "name" fields)

/-- Some stored entity matches the given merge pattern. -/
def entIn (s : GraphState) (hit : EntityNode → Bool) : Prop :=
  ∃ e ∈ s.entities, hit e = true

/-- Some stored edge matches the given merge pattern. -/
def edgeIn (s : GraphState) (hit : Edge → Bool) : Prop :=
  ∃ g ∈ s.edges, hit g = true

/-- Boolean test for the Person label. -/
def isPersonB (e : EntityNode) : Bool := decide (e.entity_type = "PERSON")

/-- Boolean test for the Organization label. -/
def isOrgB (e : EntityNode) : Bool := decide (e.entity_type = "ORG")

/-- The sixteen coalesced person attributes, each paired with the params
projection supplying its incoming value. -/
def personAttrPairs :
    List ((EntityNode → Option String) × (PersonParams → Option String)) :=
  [(EntityNode.dob, PersonParams.dob),
   (EntityNode.citizenship, PersonParams.citizenship),
   (EntityNode.place_of_birth, PersonParams.place_of_birth),
   (EntityNode.phone_number, PersonParams.phone_number),
   (EntityNode.address, PersonParams.address),
   (EntityNode.passport_number, PersonParams.passport_number),
   (EntityNode.flight_number, PersonParams.flight_number),
   (EntityNode.departure_location, PersonParams.departure_location),
   (EntityNode.arrival_location, PersonParams.arrival_location),
   (EntityNode.arrest_location, PersonParams.arrest_location),
   (EntityNode.arrival_date, PersonParams.arrival_date),
   (EntityNode.departure_date, PersonParams.departure_date),
   (EntityNode.date_generic, PersonParams.date_generic),
   (EntityNode.money, PersonParams.money),
   (EntityNode.license_plate, PersonParams.license_plate),
   (EntityNode.drivers_license, PersonParams.drivers_license)]

/-- A concrete pattern that matches the sample text with a capture that
strips to nothing (for example a regex whose value group captures only
separator characters). -/
def patComma : Pattern :=
  ⟨fun t => if t = "FIELD: ,x" then some (some ",") else none⟩

/-- A concrete second pattern for the same field, matching the same text
with a non-empty capture. -/
def patX : Pattern :=
  ⟨fun t => if t = "FIELD: ,x" then some (some "x") else none⟩

/-- A concrete pattern that matches but whose value group lookup fails,
as for a regex with no group named value. -/
def patNoValue : Pattern :=
  ⟨fun t => if t = "NAME: John" then some none else none⟩

/-- A concrete name pattern used by witness runs: it captures everything
after the NAME marker up to a semicolon. -/
def patName : Pattern :=
  ⟨fun t =>
    match t.data with
    | 'N' :: 'A' :: 'M' :: 'E' :: ':' :: ' ' :: rest =>
      some (some ⟨rest.takeWhile (fun c => !(c == ';'))⟩)
    | _ => none⟩

/-- A concrete stored record node for witness states. -/
def sampleRecord : RecordNode :=
  { record_id := "DESC_1", description := "NAME: John", row_index := 1,
    source_file := SOURCE_NAME, created_at := 0, updated_at := 0 }

/-- A concrete stored person node for witness states. -/
def samplePerson : EntityNode := personOnCreate 1 "John" (personParams [])

/-- A concrete store holding one record and one person and no edges. -/
def sampleState : GraphState := ⟨[sampleRecord], [samplePerson], [], 2⟩

/-- The store produced by running the concrete name rules over two rows
that both name John. -/
def sampleTwoJohns : GraphState :=
  ⟨[⟨"DESC_1", "NAME: John; a", 1, SOURCE_NAME, 0, 0⟩,
    ⟨"DESC_2", "NAME: John", 2, SOURCE_NAME, 3, 3⟩],
   [{ entity_type := "PERSON", canonical_text := "John", name := some "John",
      dob := none, citizenship := none, place_of_birth := none,
      phone_number := none, address := none, passport_number := none,
      flight_number := none, departure_location := none, arrival_location := none,
      arrest_location := none, arrival_date := none, departure_date := none,
      date_generic := none, money := none, license_plate := none,
      drivers_license := none, source := some "structured_text",
      created_at := 1, updated_at := 4 }],
   [⟨.recordNode "DESC_1", "DESCRIBES", .entityNode "PERSON" "John", none, none, none⟩,
    ⟨.recordNode "DESC_2", "DESCRIBES", .entityNode "PERSON" "John", none, none, none⟩],
   6⟩

/-- The concrete rules document of the reprocessing witness run. -/
def c1Rules : Rules := ⟨"DESC_", [("person", [("name", [patName])])], []⟩

/-- The store the reprocessing witness first run produces. -/
def c1State : GraphState :=
  ⟨[sampleRecord],
   [{ entity_type := "PERSON", canonical_text := "John", name := some "John",
      dob := none, citizenship := none, place_of_birth := none,
      phone_number := none, address := none, passport_number := none,
      flight_number := none, departure_location := none, arrival_location := none,
      arrest_location := none, arrival_date := none, departure_date := none,
      date_generic := none, money := none, license_plate := none,
      drivers_license := none, source := some "structured_text",
      created_at := 1, updated_at := 1 }],
   [⟨.recordNode "DESC_1", "DESCRIBES", .entityNode "PERSON" "John", none, none, none⟩],
   3⟩

/-- The merge key of an entity node, the pair the uniqueness constraint
of `ensure_schema` covers. -/
def entKey (e : EntityNode) : String × String := (e.entity_type, e.canonical_text)

/-- The person identity a row resolves, if any: the row loop composed
down to the person name. -/
def rowPersonName (ru : Rules) (d : String) : Option String :=
  match clean_str (some d) with
  | none => none
  | some dd =>
    match extract_fields dd ru.field_patterns with
    | .error _ => none
    | .ok flds => resolvedName ((dictGet "person" flds).getD [])

/-- Base-ten evaluation of a digit character list, the left inverse used
to show the record id rendering is injective. -/
def digitsVal (acc : Nat) (l : List Char) : Nat :=
  l.foldl (fun a c => 10 * a + (c.toNat - 48)) acc

/-- A person node dominates the incoming params: every coalesced
attribute keeps its stored value, so the ON MATCH clause is invisible up
to `updated_at`. -/
def personCond (q : PersonParams) (e : EntityNode) : Prop :=
  ∀ fp ∈ personAttrPairs, coalesce (fp.1 e) (fp.2 q) = fp.1 e

/-- An organization node dominates the incoming address. -/
def orgCond (a : Option String) (e : EntityNode) : Prop :=
  coalesce e.address a = e.address

/-- A record node already stores the description about to be written. -/
def recCond (d : String) (r : RecordNode) : Prop :=
  r.description = d

/-- The record part of a row is absorbed by the store. -/
def RecordAbsorbed (rid d : String) (rs : List RecordNode) : Prop :=
  (∃ r ∈ rs, recordHit rid r = true) ∧
  ∀ r ∈ rs, recordHit rid r = true → recCond d r

/-- The person part of a row is absorbed by the stored entities. -/
def PersonAbsorbed (pf : List (String × String)) (n : String)
    (es : List EntityNode) : Prop :=
  (∃ e ∈ es, personHit n e = true) ∧
  ∀ e ∈ es, personHit n e = true → personCond (personParams pf) e

/-- The organization part of a row is absorbed by the stored entities. -/
def OrgAbsorbed (og : List (String × String)) (m : String)
    (es : List EntityNode) : Prop :=
  (∃ e ∈ es, orgHit m e = true) ∧
  ∀ e ∈ es, orgHit m e = true → orgCond (clean_str (dictGet "address" og)) e

/-- The location part of a row is absorbed: every mapped field value has
its Location node and its typed edge in the store. -/
def LocAbsorbed (relMap : List (String × String)) (n : String)
    (pf : List (String × String)) (s : GraphState) : Prop :=
  ∀ fk rt, (fk, rt) ∈ relMap → ∀ L, clean_str (dictGet fk pf) = some L →
    (∃ e ∈ s.entities, locHit L e = true) ∧
    (∃ g ∈ s.edges, locEdgeHit n rt L g = true)

/-- All per-store conditions of one extracted row. -/
def RowConds (ru : Rules) (rid d : String)
    (flds : List (String × List (String × String))) (s : GraphState) : Prop :=
  RecordAbsorbed rid d s.records ∧
  (∀ n, resolvedName ((dictGet "person" flds).getD []) = some n →
    PersonAbsorbed ((dictGet "person" flds).getD []) n s.entities ∧
    (∃ g ∈ s.edges, describesHit rid n g = true) ∧
    LocAbsorbed ru.location_relationships n ((dictGet "person" flds).getD []) s ∧
    (∀ m, resolvedName ((dictGet "organization" flds).getD []) = some m →
      ∃ g ∈ s.edges, assocHit n m g = true)) ∧
  (∀ m, resolvedName ((dictGet "organization" flds).getD []) = some m →
    OrgAbsorbed ((dictGet "organization" flds).getD []) m s.entities)

/-- A row is absorbed by a store: re-processing it writes nothing apart
from `updated_at` and `last_seen` refreshes. -/
def RowAbsorbed (ru : Rules) (idx : Nat) (desc : String) (s : GraphState) : Prop :=
  match clean_str (some desc) with
  | none => True
  | some d =>
    ∃ flds, extract_fields d ru.field_patterns = .ok flds ∧
      RowConds ru (ru.record_id_prefix ++ toString (idx + 1)) d flds s

/-- Erase the fields a re-run refreshes on a record node: `updated_at`. -/
def eraseRecTs (r : RecordNode) : RecordNode := { r with updated_at := 0 }

/-- Erase the fields a re-run refreshes on an entity node: `updated_at`. -/
def eraseEntTs (e : EntityNode) : EntityNode := { e with updated_at := 0 }

/-- Erase the fields a re-run refreshes on an edge: `last_seen`. -/
def eraseEdgeTs (g : Edge) : Edge := { g with last_seen := none }

/-- Erase everything a second identical run may refresh: `updated_at` of
every node, `last_seen` of every edge, and the logical clock.  Two states
equal after erasure hold exactly the same nodes and edges up to those
timestamp fields. -/
def eraseTs (s : GraphState) : GraphState :=
  { records := s.records.map eraseRecTs,
    entities := s.entities.map eraseEntTs,
    edges := s.edges.map eraseEdgeTs,
    clock := 0 }

/-! ## Generic lemmas about `mergeBy` and `coalesce` -/

theorem coalesce_some (x : String) (b : Option String) :
    coalesce (some x) b = some x := rfl

theorem coalesce_none (b : Option String) : coalesce none b = b := rfl

theorem coalesce_none_right (a : Option String) : coalesce a none = a := by
  cases a <;> rfl

theorem coalesce_coalesce (a b : Option String) :
    coalesce (coalesce a b) b = coalesce a b := by
  cases a <;> cases b <;> rfl

/-- Once a value dominates an incoming value, it still does after being
coalesced with any other incoming value. -/
theorem coalesce_eq_of_eq {a b : Option String} (h : coalesce a b = a)
    (c : Option String) : coalesce (coalesce a c) b = coalesce a c := by
  cases a with
  | some x => rfl
  | none =>
    cases b with
    | some y => simp [coalesce] at h
    | none => exact coalesce_none_right _

theorem mergeBy_of_any {hit : α → Bool} {l : List α} (h : l.any hit = true)
    (upd : α → α) (mk : α) :
    mergeBy hit upd mk l = l.map (fun x => if hit x then upd x else x) := by
  simp [mergeBy, h]

theorem mergeBy_of_not_any {hit : α → Bool} {l : List α} (h : l.any hit = false)
    (upd : α → α) (mk : α) :
    mergeBy hit upd mk l = l ++ [mk] := by
  simp [mergeBy, h]

/-- Mapping a merge result with `f` when the update is invisible to `f` on
every matched element: the map of the list is unchanged. -/
theorem mergeBy_map_noop {f : α → β} {hit : α → Bool} {upd : α → α} {mk : α}
    {l : List α} (h1 : l.any hit = true)
    (h2 : ∀ x ∈ l, hit x = true → f (upd x) = f x) :
    (mergeBy hit upd mk l).map f = l.map f := by
  rw [mergeBy_of_any h1, List.map_map]
  apply List.map_congr_left
  intro x hx
  by_cases h : hit x = true
  · simp [h, h2 x hx h]
  · simp [Bool.not_eq_true] at h
    simp [h]

/-- Merging commutes with a projection `f` that determines the merge
pattern and the update clause. -/
theorem map_mergeBy (f : α → β) {hit : α → Bool} {hit2 : β → Bool}
    {upd : α → α} {upd2 : β → β} {mk : α} {l : List α}
    (hhit : ∀ x, hit2 (f x) = hit x) (hupd : ∀ x, f (upd x) = upd2 (f x)) :
    (mergeBy hit upd mk l).map f = mergeBy hit2 upd2 (f mk) (l.map f) := by
  have hany : (l.map f).any hit2 = l.any hit := by
    induction l with
    | nil => rfl
    | cons a t ih => simp [hhit, ih]
  by_cases h : l.any hit = true
  · rw [mergeBy_of_any h, mergeBy_of_any (hany.trans h), List.map_map, List.map_map]
    apply List.map_congr_left
    intro x _
    by_cases hx : hit x = true
    · simp [hx, hhit, hupd]
    · simp [Bool.not_eq_true] at hx
      simp [hx, hhit]
  · simp only [Bool.not_eq_true] at h
    rw [mergeBy_of_not_any h, mergeBy_of_not_any (hany.trans h), List.map_append,
      List.map_singleton]

theorem mem_mergeBy_of_not_hit {hit : α → Bool} {x : α} {l : List α}
    (hx : x ∈ l) (h : hit x = false) (upd : α → α) (mk : α) :
    x ∈ mergeBy hit upd mk l := by
  by_cases ha : l.any hit = true
  · rw [mergeBy_of_any ha]
    exact List.mem_map.2 ⟨x, hx, by simp [h]⟩
  · simp only [Bool.not_eq_true] at ha
    rw [mergeBy_of_not_any ha]
    exact List.mem_append_left _ hx

theorem upd_mem_mergeBy {hit : α → Bool} {x : α} {l : List α}
    (hx : x ∈ l) (h : hit x = true) (upd : α → α) (mk : α) :
    upd x ∈ mergeBy hit upd mk l := by
  have ha : l.any hit = true := List.any_eq_true.2 ⟨x, hx, h⟩
  rw [mergeBy_of_any ha]
  exact List.mem_map.2 ⟨x, hx, by simp [h]⟩

/-- Every element of a merge result is an untouched stored element, an
updated stored element, or the freshly created element. -/
theorem mem_mergeBy {hit : α → Bool} {upd : α → α} {mk : α} {l : List α} {y : α}
    (hy : y ∈ mergeBy hit upd mk l) :
    y ∈ l ∨ (∃ x ∈ l, hit x = true ∧ y = upd x) ∨ y = mk := by
  by_cases ha : l.any hit = true
  · rw [mergeBy_of_any ha] at hy
    obtain ⟨x, hx, hfx⟩ := List.mem_map.1 hy
    by_cases h : hit x = true
    · exact Or.inr (Or.inl ⟨x, hx, h, by simp [h] at hfx; exact hfx.symm⟩)
    · simp only [Bool.not_eq_true] at h
      simp only [h, if_false] at hfx
      exact Or.inl (hfx ▸ hx)
  · simp only [Bool.not_eq_true] at ha
    rw [mergeBy_of_not_any ha] at hy
    rcases List.mem_append.1 hy with h | h
    · exact Or.inl h
    · exact Or.inr (Or.inr (List.mem_singleton.1 h))

/-- After a merge, some element matches the merge pattern. -/
theorem exists_hit_mergeBy {hit : α → Bool} {upd : α → α} {mk : α} {l : List α}
    (hmk : hit mk = true) (hupd : ∀ x, hit x = true → hit (upd x) = true) :
    ∃ y ∈ mergeBy hit upd mk l, hit y = true := by
  by_cases ha : l.any hit = true
  · obtain ⟨x, hx, h⟩ := List.any_eq_true.1 ha
    exact ⟨upd x, upd_mem_mergeBy hx h upd mk, hupd x h⟩
  · simp only [Bool.not_eq_true] at ha
    rw [mergeBy_of_not_any ha]
    exact ⟨mk, List.mem_append_right _ (List.mem_singleton.2 rfl), hmk⟩

/-- A witness for a predicate survives any merge whose update clause
preserves the predicate. -/
theorem exists_mergeBy_of_exists {p hit : α → Bool} {upd : α → α} {mk : α}
    {l : List α} (h : ∃ x ∈ l, p x = true)
    (hupd : ∀ x, p x = true → p (upd x) = true) :
    ∃ y ∈ mergeBy hit upd mk l, p y = true := by
  obtain ⟨x, hx, hp⟩ := h
  by_cases hh : hit x = true
  · exact ⟨upd x, upd_mem_mergeBy hx hh upd mk, hupd x hp⟩
  · simp only [Bool.not_eq_true] at hh
    exact ⟨x, mem_mergeBy_of_not_hit hx hh upd mk, hp⟩

/-- A property of all pattern-matching elements, transported across a
merge. -/
theorem forall_mergeBy {hit2 : α → Bool} {P : α → Prop} {hit : α → Bool}
    {upd : α → α} {mk : α} {l : List α}
    (hbase : ∀ x ∈ l, hit2 x = true → P x)
    (hupd : ∀ x ∈ l, hit x = true → hit2 (upd x) = true → P (upd x))
    (hmk : hit2 mk = true → P mk) :
    ∀ y ∈ mergeBy hit upd mk l, hit2 y = true → P y := by
  intro y hy h2
  rcases mem_mergeBy hy with h | ⟨x, hx, hh, rfl⟩ | rfl
  · exact hbase y h h2
  · exact hupd x hx hh h2
  · exact hmk h2

theorem length_mergeBy {hit : α → Bool} {upd : α → α} {mk : α} {l : List α} :
    (mergeBy hit upd mk l).length =
      if l.any hit = true then l.length else l.length + 1 := by
  by_cases h : l.any hit = true
  · rw [mergeBy_of_any h, List.length_map, if_pos h]
  · simp only [Bool.not_eq_true] at h
    rw [mergeBy_of_not_any h, List.length_append, if_neg (by simp [h])]
    rfl

/-- Merging preserves pairwise distinctness of a key when the update
clause preserves keys and the merge pattern subsumes key equality with the
created element. -/
theorem pairwise_mergeBy {key : α → κ} {hit : α → Bool} {upd : α → α} {mk : α}
    {l : List α} (hupd : ∀ x, key (upd x) = key x)
    (hhit : ∀ x, key x = key mk → hit x = true)
    (hl : l.Pairwise (fun a b => key a ≠ key b)) :
    (mergeBy hit upd mk l).Pairwise (fun a b => key a ≠ key b) := by
  by_cases h : l.any hit = true
  · rw [mergeBy_of_any h]
    refine List.Pairwise.map _ ?_ hl
    intro a b hab
    by_cases ha : hit a = true <;> by_cases hb : hit b = true <;>
      simp [ha, hb, hupd, hab]
  · simp only [Bool.not_eq_true] at h
    rw [mergeBy_of_not_any h]
    rw [List.pairwise_append]
    refine ⟨hl, List.pairwise_singleton _ _, ?_⟩
    intro a ha b hb
    rw [List.mem_singleton] at hb
    subst hb
    intro hk
    have := hhit a hk
    have := List.any_eq_true.2 ⟨a, ha, this⟩
    rw [h] at this
    exact Bool.false_ne_true this

/-- Filtering is unaffected by a merge that only touches elements outside
the filter and creates an element outside the filter. -/
theorem filter_mergeBy {p hit : α → Bool} {upd : α → α} {mk : α} {l : List α}
    (h1 : ∀ x ∈ l, hit x = true → p x = false)
    (h2 : ∀ x ∈ l, hit x = true → p (upd x) = false)
    (h3 : p mk = false) :
    (mergeBy hit upd mk l).filter p = l.filter p := by
  have key : ∀ (t : List α), (∀ x ∈ t, hit x = true → p x = false) →
      (∀ x ∈ t, hit x = true → p (upd x) = false) →
      (t.map (fun x => if hit x then upd x else x)).filter p = t.filter p := by
    intro t
    induction t with
    | nil => intro _ _; rfl
    | cons a t ih =>
      intro g1 g2
      have ht := ih (fun x hx => g1 x (List.mem_cons_of_mem a hx))
        (fun x hx => g2 x (List.mem_cons_of_mem a hx))
      by_cases ha : hit a = true
      · simp only [List.map_cons, if_pos ha, List.filter_cons,
          g2 a (List.mem_cons_self a t) ha, g1 a (List.mem_cons_self a t) ha,
          Bool.false_eq_true, if_false]
        exact ht
      · simp only [Bool.not_eq_true] at ha
        simp only [List.map_cons, ha, Bool.false_eq_true, if_false, List.filter_cons]
        rw [ht]
  by_cases h : l.any hit = true
  · rw [mergeBy_of_any h]
    exact key l h1 h2
  · simp only [Bool.not_eq_true] at h
    rw [mergeBy_of_not_any h, List.filter_append]
    simp [h3]

/-! ## Claim C4: pattern precedence in extraction -/

/-- Claim C4, counterexample.  The claim states that the first pattern
that matches wins and that later patterns are never evaluated even if they
would also match, the stored value being the trimmed and stripped capture
of the first-listed matching pattern.  Here both patterns match the text;
the first capture is a bare comma, which strips to the empty string, and
the code then evaluates the second pattern and stores its capture, so the
stored value is not the stripped capture of the first-listed matching
pattern. -/
theorem C4_counterexample :
    patComma.search "FIELD: ,x" = some (some ",") ∧
    patX.search "FIELD: ,x" = some (some "x") ∧
    stripQuoteSep (pyStrip ",") = "" ∧
    extract_field_value "FIELD: ,x" [patComma, patX] = .ok (some "x") := by
  refine ⟨rfl, rfl, rfl, rfl⟩

/-- Claim C4, amended.  Patterns are tried in declared order; a pattern
that does not match is skipped; the first pattern whose capture is
non-empty after trimming and stripping wins and later patterns are then
not evaluated; but a matching pattern whose capture strips to the empty
string does not stop the search, which continues with the later
patterns. -/
theorem C4_pattern_precedence :
    (∀ (t : String) (p : Pattern) (rest : List Pattern),
      p.search t = none →
      extract_field_value t (p :: rest) = extract_field_value t rest) ∧
    (∀ (t : String) (p : Pattern) (rest : List Pattern) (raw : String),
      p.search t = some (some raw) → stripQuoteSep (pyStrip raw) ≠ "" →
      extract_field_value t (p :: rest) = .ok (some (stripQuoteSep (pyStrip raw)))) ∧
    (∀ (t : String) (p : Pattern) (rest : List Pattern) (raw : String),
      p.search t = some (some raw) → stripQuoteSep (pyStrip raw) = "" →
      extract_field_value t (p :: rest) = extract_field_value t rest) := by
  refine ⟨?_, ?_, ?_⟩
  · intro t p rest h
    simp [extract_field_value, h]
  · intro t p rest raw h hne
    simp [extract_field_value, h, hne]
  · intro t p rest raw h he
    simp [extract_field_value, h, he]

/-- Claim C4, witness: the amended theorem applied to the concrete
two-pattern field. -/
theorem C4_witness :
    extract_field_value "FIELD: ,x" [patComma, patX] =
      extract_field_value "FIELD: ,x" [patX] ∧
    extract_field_value "FIELD: ,x" [patX] = .ok (some "x") :=
  ⟨C4_pattern_precedence.2.2 "FIELD: ,x" patComma [patX] "," rfl rfl,
   C4_pattern_precedence.2.1 "FIELD: ,x" patX [] "x" rfl (by decide)⟩

/-! ## Claim C10: a matching pattern without a value group raises -/

/-- Claim C10.  If a pattern matches the text but its value group lookup
fails (the pattern defines no capture group named value), extraction
raises instead of treating the pattern as a silent miss; silent absence is
the behaviour only when no pattern produces a value, as in the exhausted
pattern list. -/
theorem C10_missing_value_group_raises :
    (∀ (t : String) (p : Pattern) (rest : List Pattern),
      p.search t = some none →
      extract_field_value t (p :: rest) = .error ()) ∧
    (∀ t : String, extract_field_value t [] = .ok none) := by
  constructor
  · intro t p rest h
    simp [extract_field_value, h]
  · intro t
    rfl

/-- Claim C10, witness: the raising behaviour on the concrete pattern
whose value group is missing. -/
theorem C10_witness :
    extract_field_value "NAME: John" [patNoValue] = .error () :=
  C10_missing_value_group_raises.1 "NAME: John" patNoValue [] rfl

/-! ## Claim C7: record upsert frame conditions on match -/

/-- Claim C7.  When `upsert_record` matches an existing record by
record_id, it overwrites description and updated_at unconditionally and
leaves row_index, source_file and created_at unchanged; created_at is set
only by the ON CREATE clause. -/
theorem C7_record_match_frame :
    (∀ (s : GraphState) (rid : String) (i : Nat) (d : String),
      s.records.any (recordHit rid) = true →
      (upsert_record s rid i d).records =
        s.records.map (fun r =>
          if recordHit rid r then recordOnMatch s.clock d r else r)) ∧
    (∀ (now : Nat) (d : String) (r : RecordNode),
      (recordOnMatch now d r).description = d ∧
      (recordOnMatch now d r).updated_at = now ∧
      (recordOnMatch now d r).row_index = r.row_index ∧
      (recordOnMatch now d r).source_file = r.source_file ∧
      (recordOnMatch now d r).created_at = r.created_at ∧
      (recordOnMatch now d r).record_id = r.record_id) ∧
    (∀ (s : GraphState) (rid : String) (i : Nat) (d : String),
      s.records.any (recordHit rid) = false →
      (upsert_record s rid i d).records =
        s.records ++ [recordOnCreate s.clock rid i d]) ∧
    (∀ (now : Nat) (rid : String) (i : Nat) (d : String),
      (recordOnCreate now rid i d).created_at = now) := by
  refine ⟨?_, ?_, ?_, ?_⟩
  · intro s rid i d h
    simp only [upsert_record]
    exact mergeBy_of_any h _ _
  · intro now d r
    exact ⟨rfl, rfl, rfl, rfl, rfl, rfl⟩
  · intro s rid i d h
    simp only [upsert_record]
    exact mergeBy_of_not_any h _ _
  · intro now rid i d
    rfl

/-- Claim C7, witness: the match branch applied to the concrete store
holding the sample record. -/
theorem C7_witness :
    (upsert_record sampleState "DESC_1" 1 "changed").records =
      sampleState.records.map (fun r =>
        if recordHit "DESC_1" r then recordOnMatch sampleState.clock "changed" r
        else r) :=
  C7_record_match_frame.1 sampleState "DESC_1" 1 "changed" (by decide)

/-! ## Claim C2: coalesce-on-match for entity attributes -/

/-- Every coalesced person attribute goes through `coalesce` on match. -/
theorem personOnMatch_attr (fp) (hfp : fp ∈ personAttrPairs)
    (now : Nat) (q : PersonParams) (e : EntityNode) :
    fp.1 (personOnMatch now q e) = coalesce (fp.1 e) (fp.2 q) := by
  fin_cases hfp <;> rfl

/-- Claim C2.  On a person or organization upsert that matches an existing
node by identity, the matched nodes are rewritten with the ON MATCH
clause; for every coalesced attribute a stored non-null value survives
even when the incoming params carry a different non-null value, an
attribute is written only when it is currently unset, and updated_at is
set to the current instant, hence advanced past any earlier value. -/
theorem C2_coalesce_on_match :
    (∀ (s : GraphState) (pf : List (String × String)) (n : String),
      clean_str (dictGet "name" pf) = some n →
      s.entities.any (personHit n) = true →
      (upsert_person s pf).2 = some n ∧
      (upsert_person s pf).1.entities =
        s.entities.map (fun e =>
          if personHit n e then personOnMatch s.clock (personParams pf) e else e)) ∧
    (∀ (s : GraphState) (og : List (String × String)) (n : String),
      clean_str (dictGet "name" og) = some n →
      s.entities.any (orgHit n) = true →
      (upsert_organization s og).2 = some n ∧
      (upsert_organization s og).1.entities =
        s.entities.map (fun e =>
          if orgHit n e then orgOnMatch s.clock (clean_str (dictGet "address" og)) e
          else e)) ∧
    (∀ (now : Nat) (q : PersonParams) (e : EntityNode),
      (personOnMatch now q e).updated_at = now ∧
      (e.updated_at < now → e.updated_at < (personOnMatch now q e).updated_at) ∧
      ∀ fp ∈ personAttrPairs,
        (∀ v, fp.1 e = some v → fp.1 (personOnMatch now q e) = some v) ∧
        (fp.1 e = none → fp.1 (personOnMatch now q e) = fp.2 q)) ∧
    (∀ (now : Nat) (a : Option String) (e : EntityNode),
      (orgOnMatch now a e).updated_at = now ∧
      (e.updated_at < now → e.updated_at < (orgOnMatch now a e).updated_at) ∧
      (∀ v, e.address = some v → (orgOnMatch now a e).address = some v) ∧
      (e.address = none → (orgOnMatch now a e).address = a)) := by
  refine ⟨?_, ?_, ?_, ?_⟩
  · intro s pf n hn hany
    simp only [upsert_person, hn]
    exact ⟨trivial, mergeBy_of_any hany _ _⟩
  · intro s og n hn hany
    simp only [upsert_organization, hn]
    exact ⟨trivial, mergeBy_of_any hany _ _⟩
  · intro now q e
    refine ⟨rfl, fun h => h, ?_⟩
    intro fp hfp
    rw [personOnMatch_attr fp hfp]
    constructor
    · intro v hv
      rw [hv, coalesce_some]
    · intro hv
      rw [hv, coalesce_none]
  · intro now a e
    refine ⟨rfl, fun h => h, ?_, ?_⟩
    · intro v hv
      show coalesce e.address a = some v
      rw [hv, coalesce_some]
    · intro hv
      show coalesce e.address a = a
      rw [hv, coalesce_none]

/-- Claim C2, witness: a second ingestion of John with a different dob
against the concrete store; the match branch applies and the stored dob
survives. -/
theorem C2_witness :
    (upsert_person sampleState [("name", "John"), ("dob", "1990-01-01")]).1.entities =
      sampleState.entities.map (fun e =>
        if personHit "John" e then
          personOnMatch sampleState.clock
            (personParams [("name", "John"), ("dob", "1990-01-01")]) e
        else e) ∧
    (samplePerson.dob = none →
      (personOnMatch sampleState.clock
        (personParams [("name", "John"), ("dob", "1990-01-01")]) samplePerson).dob =
        (personParams [("name", "John"), ("dob", "1990-01-01")]).dob) :=
  ⟨(C2_coalesce_on_match.1 sampleState [("name", "John"), ("dob", "1990-01-01")]
      "John" (by decide) (by decide)).2,
   ((C2_coalesce_on_match.2.2.1 sampleState.clock
      (personParams [("name", "John"), ("dob", "1990-01-01")]) samplePerson).2.2
      (EntityNode.dob, PersonParams.dob) (by simp [personAttrPairs])).2⟩

/-! ## Claim C5: edge create and match timestamp policy -/

/-- Claim C5, counterexample.  The claim states that every edge upsert,
including the Record to Person DESCRIBES edge, sets source, first_seen and
last_seen on creation.  On the concrete store the DESCRIBES merge creates
the edge, and the created edge carries no source, no first_seen and no
last_seen at all. -/
theorem C5_counterexample :
    (connect_record_to_person sampleState "DESC_1" "John").edges =
      [describesOnCreate "DESC_1" "John"] ∧
    (describesOnCreate "DESC_1" "John").source = none ∧
    (describesOnCreate "DESC_1" "John").first_seen = none ∧
    (describesOnCreate "DESC_1" "John").last_seen = none := by
  refine ⟨by decide, rfl, rfl, rfl⟩

/-- Claim C5, amended.  The Person to Organization edge and every Person
to Location edge follow the entity timestamp policy: on creation they set
source, first_seen and last_seen to the current instant, and on every
re-observation they advance only last_seen, leaving source and first_seen
untouched.  The Record to Person DESCRIBES edge instead writes no
properties at all: the created edge has no source, first_seen or
last_seen, and a re-observation leaves the edge list unchanged. -/
theorem C5_edge_timestamp_policy :
    (∀ (s : GraphState) (p o : String),
      s.entities.any (personHit p) = true → s.entities.any (orgHit o) = true →
      (s.edges.any (assocHit p o) = false →
        (connect_person_to_org s p o).edges = s.edges ++ [assocOnCreate s.clock p o]) ∧
      (s.edges.any (assocHit p o) = true →
        (connect_person_to_org s p o).edges = s.edges.map (fun g =>
          if assocHit p o g then edgeOnMatch s.clock g else g))) ∧
    (∀ (s : GraphState) (p rt l : String),
      s.entities.any (personHit p) = true → s.entities.any (locHit l) = true →
      (s.edges.any (locEdgeHit p rt l) = false →
        (connect_location_edge s p rt l).edges =
          s.edges ++ [locEdgeOnCreate s.clock p rt l]) ∧
      (s.edges.any (locEdgeHit p rt l) = true →
        (connect_location_edge s p rt l).edges = s.edges.map (fun g =>
          if locEdgeHit p rt l g then edgeOnMatch s.clock g else g))) ∧
    (∀ (now : Nat) (p o : String),
      (assocOnCreate now p o).source = some "structured_text" ∧
      (assocOnCreate now p o).first_seen = some now ∧
      (assocOnCreate now p o).last_seen = some now) ∧
    (∀ (now : Nat) (p rt l : String),
      (locEdgeOnCreate now p rt l).source = some "structured_text" ∧
      (locEdgeOnCreate now p rt l).first_seen = some now ∧
      (locEdgeOnCreate now p rt l).last_seen = some now) ∧
    (∀ (now : Nat) (g : Edge),
      (edgeOnMatch now g).last_seen = some now ∧
      (edgeOnMatch now g).source = g.source ∧
      (edgeOnMatch now g).first_seen = g.first_seen ∧
      (edgeOnMatch now g).src = g.src ∧
      (edgeOnMatch now g).rel_type = g.rel_type ∧
      (edgeOnMatch now g).dst = g.dst) ∧
    (∀ (rid n : String),
      (describesOnCreate rid n).source = none ∧
      (describesOnCreate rid n).first_seen = none ∧
      (describesOnCreate rid n).last_seen = none) ∧
    (∀ (s : GraphState) (rid n : String),
      s.edges.any (describesHit rid n) = true →
      (connect_record_to_person s rid n).edges = s.edges) := by
  refine ⟨?_, ?_, ?_, ?_, ?_, ?_, ?_⟩
  · intro s p o hp ho
    constructor
    · intro hno
      simp only [connect_person_to_org, hp, ho, Bool.and_self, if_true]
      exact mergeBy_of_not_any hno _ _
    · intro hyes
      simp only [connect_person_to_org, hp, ho, Bool.and_self, if_true]
      exact mergeBy_of_any hyes _ _
  · intro s p rt l hp hl
    constructor
    · intro hno
      simp only [connect_location_edge, hp, hl, Bool.and_self, if_true]
      exact mergeBy_of_not_any hno _ _
    · intro hyes
      simp only [connect_location_edge, hp, hl, Bool.and_self, if_true]
      exact mergeBy_of_any hyes _ _
  · intro now p o
    exact ⟨rfl, rfl, rfl⟩
  · intro now p rt l
    exact ⟨rfl, rfl, rfl⟩
  · intro now g
    exact ⟨rfl, rfl, rfl, rfl, rfl, rfl⟩
  · intro rid n
    exact ⟨rfl, rfl, rfl⟩
  · intro s rid n h
    simp only [connect_record_to_person]
    by_cases hg : (s.records.any (recordHit rid) &&
        s.entities.any (personHit n)) = true
    · simp only [hg, if_true]
      show mergeBy (describesHit rid n) id (describesOnCreate rid n) s.edges = s.edges
      rw [mergeBy_of_any h id (describesOnCreate rid n)]
      have h2 : s.edges.map (fun x => if describesHit rid n x then id x else x) =
          s.edges.map (fun x => x) := by
        apply List.map_congr_left
        intro x _
        by_cases hx : describesHit rid n x = true <;> simp [hx]
      rw [h2, List.map_id']
    · simp only [Bool.not_eq_true] at hg
      simp only [hg, Bool.false_eq_true, if_false]

/-- Claim C5, witness: the organization edge creation branch on a
concrete store holding John and an organization. -/
theorem C5_witness :
    (connect_person_to_org
      ⟨[sampleRecord], [samplePerson, orgOnCreate 1 "Acme" none], [], 2⟩
      "John" "Acme").edges =
      [] ++ [assocOnCreate 2 "John" "Acme"] :=
  ((C5_edge_timestamp_policy.1
      ⟨[sampleRecord], [samplePerson, orgOnCreate 1 "Acme" none], [], 2⟩
      "John" "Acme" (by decide) (by decide)).1 (by decide))

/-! ## Frame lemmas: which state parts each operation touches -/

@[simp] theorem upsert_record_entities (s : GraphState) (rid : String) (i : Nat)
    (d : String) : (upsert_record s rid i d).entities = s.entities := rfl

@[simp] theorem upsert_record_edges (s : GraphState) (rid : String) (i : Nat)
    (d : String) : (upsert_record s rid i d).edges = s.edges := rfl

@[simp] theorem upsert_person_records (s : GraphState) (pf : List (String × String)) :
    (upsert_person s pf).1.records = s.records := by
  unfold upsert_person
  cases clean_str (dictGet "name" pf) <;> rfl

@[simp] theorem upsert_person_edges (s : GraphState) (pf : List (String × String)) :
    (upsert_person s pf).1.edges = s.edges := by
  unfold upsert_person
  cases clean_str (dictGet "name" pf) <;> rfl

@[simp] theorem upsert_organization_records (s : GraphState)
    (og : List (String × String)) :
    (upsert_organization s og).1.records = s.records := by
  unfold upsert_organization
  cases clean_str (dictGet "name" og) <;> rfl

@[simp] theorem upsert_organization_edges (s : GraphState)
    (og : List (String × String)) :
    (upsert_organization s og).1.edges = s.edges := by
  unfold upsert_organization
  cases clean_str (dictGet "name" og) <;> rfl

@[simp] theorem upsert_location_records (s : GraphState) (n : String) :
    (upsert_location s n).records = s.records := by
  unfold upsert_location
  split <;> rfl

@[simp] theorem upsert_location_edges (s : GraphState) (n : String) :
    (upsert_location s n).edges = s.edges := by
  unfold upsert_location
  split <;> rfl

@[simp] theorem connect_record_to_person_records (s : GraphState) (rid n : String) :
    (connect_record_to_person s rid n).records = s.records := by
  unfold connect_record_to_person
  split <;> rfl

@[simp] theorem connect_record_to_person_entities (s : GraphState) (rid n : String) :
    (connect_record_to_person s rid n).entities = s.entities := by
  unfold connect_record_to_person
  split <;> rfl

@[simp] theorem connect_person_to_org_records (s : GraphState) (p o : String) :
    (connect_person_to_org s p o).records = s.records := by
  unfold connect_person_to_org
  split <;> rfl

@[simp] theorem connect_person_to_org_entities (s : GraphState) (p o : String) :
    (connect_person_to_org s p o).entities = s.entities := by
  unfold connect_person_to_org
  split <;> rfl

@[simp] theorem connect_location_edge_records (s : GraphState) (p rt l : String) :
    (connect_location_edge s p rt l).records = s.records := by
  unfold connect_location_edge
  split <;> rfl

@[simp] theorem connect_location_edge_entities (s : GraphState) (p rt l : String) :
    (connect_location_edge s p rt l).entities = s.entities := by
  unfold connect_location_edge
  split <;> rfl

@[simp] theorem connect_person_to_locations_records (s : GraphState)
    (m : List (String × String)) (pn : String) (pf : List (String × String)) :
    (connect_person_to_locations s m pn pf).records = s.records := by
  induction m generalizing s with
  | nil => rfl
  | cons a rest ih =>
    unfold connect_person_to_locations
    cases clean_str (dictGet a.1 pf) with
    | none => exact ih s
    | some ln => rw [ih, connect_location_edge_records, upsert_location_records]

/-! ## Merge pattern invariance under the ON MATCH clauses -/

@[simp] theorem personHit_personOnMatch (n : String) (now : Nat) (q : PersonParams)
    (e : EntityNode) : personHit n (personOnMatch now q e) = personHit n e := rfl

@[simp] theorem personHit_orgOnMatch (n : String) (now : Nat) (a : Option String)
    (e : EntityNode) : personHit n (orgOnMatch now a e) = personHit n e := rfl

@[simp] theorem personHit_locOnMatch (n : String) (now : Nat)
    (e : EntityNode) : personHit n (locOnMatch now e) = personHit n e := rfl

@[simp] theorem orgHit_personOnMatch (n : String) (now : Nat) (q : PersonParams)
    (e : EntityNode) : orgHit n (personOnMatch now q e) = orgHit n e := rfl

@[simp] theorem orgHit_orgOnMatch (n : String) (now : Nat) (a : Option String)
    (e : EntityNode) : orgHit n (orgOnMatch now a e) = orgHit n e := rfl

@[simp] theorem orgHit_locOnMatch (n : String) (now : Nat)
    (e : EntityNode) : orgHit n (locOnMatch now e) = orgHit n e := rfl

@[simp] theorem locHit_personOnMatch (n : String) (now : Nat) (q : PersonParams)
    (e : EntityNode) : locHit n (personOnMatch now q e) = locHit n e := rfl

@[simp] theorem locHit_orgOnMatch (n : String) (now : Nat) (a : Option String)
    (e : EntityNode) : locHit n (orgOnMatch now a e) = locHit n e := rfl

@[simp] theorem locHit_locOnMatch (n : String) (now : Nat)
    (e : EntityNode) : locHit n (locOnMatch now e) = locHit n e := rfl

@[simp] theorem recordHit_recordOnMatch (rid : String) (now : Nat) (d : String)
    (r : RecordNode) : recordHit rid (recordOnMatch now d r) = recordHit rid r := rfl

@[simp] theorem assocHit_edgeOnMatch (p o : String) (now : Nat) (g : Edge) :
    assocHit p o (edgeOnMatch now g) = assocHit p o g := rfl

@[simp] theorem describesHit_edgeOnMatch (rid n : String) (now : Nat) (g : Edge) :
    describesHit rid n (edgeOnMatch now g) = describesHit rid n g := rfl

@[simp] theorem locEdgeHit_edgeOnMatch (p rt l : String) (now : Nat) (g : Edge) :
    locEdgeHit p rt l (edgeOnMatch now g) = locEdgeHit p rt l g := rfl

/-! ## Merge pattern values on the ON CREATE elements -/

@[simp] theorem personHit_personOnCreate (n : String) (now : Nat) (q : PersonParams) :
    personHit n (personOnCreate now n q) = true := by
  simp [personHit, personOnCreate]

@[simp] theorem orgHit_orgOnCreate (n : String) (now : Nat) (a : Option String) :
    orgHit n (orgOnCreate now n a) = true := by
  simp [orgHit, orgOnCreate]

@[simp] theorem locHit_locOnCreate (n : String) (now : Nat) :
    locHit n (locOnCreate now n) = true := by
  simp [locHit, locOnCreate]

@[simp] theorem personHit_orgOnCreate (n m : String) (now : Nat) (a : Option String) :
    personHit n (orgOnCreate now m a) = false := by
  simp [personHit, orgOnCreate]

@[simp] theorem personHit_locOnCreate (n m : String) (now : Nat) :
    personHit n (locOnCreate now m) = false := by
  simp [personHit, locOnCreate]

@[simp] theorem orgHit_personOnCreate (n m : String) (now : Nat) (q : PersonParams) :
    orgHit n (personOnCreate now m q) = false := by
  simp [orgHit, personOnCreate]

@[simp] theorem orgHit_locOnCreate (n m : String) (now : Nat) :
    orgHit n (locOnCreate now m) = false := by
  simp [orgHit, locOnCreate]

@[simp] theorem assocHit_describesOnCreate (p o rid n : String) :
    assocHit p o (describesOnCreate rid n) = false := by
  simp [assocHit, describesOnCreate]

@[simp] theorem assocHit_locEdgeOnCreate (p o : String) (now : Nat) (pn rt ln : String) :
    assocHit p o (locEdgeOnCreate now pn rt ln) = false := by
  simp [assocHit, locEdgeOnCreate]

@[simp] theorem assocHit_assocOnCreate (p o : String) (now : Nat) :
    assocHit p o (assocOnCreate now p o) = true := by
  simp [assocHit, assocOnCreate]

@[simp] theorem describesHit_describesOnCreate (rid n : String) :
    describesHit rid n (describesOnCreate rid n) = true := by
  simp [describesHit, describesOnCreate]

@[simp] theorem locEdgeHit_locEdgeOnCreate (p rt l : String) (now : Nat) :
    locEdgeHit p rt l (locEdgeOnCreate now p rt l) = true := by
  simp [locEdgeHit, locEdgeOnCreate]

/-! ## Resolution lemmas -/

theorem resolvedName_eq_some {pf : List (String × String)} {n : String}
    (h : resolvedName pf = some n) :
    pf ≠ [] ∧ clean_str (dictGet "name" pf) = some n := by
  unfold resolvedName at h
  by_cases hpf : pf = []
  · rw [if_pos hpf] at h
    exact absurd h (by simp)
  · rw [if_neg hpf] at h
    exact ⟨hpf, h⟩

/-- The guarded person upsert of the row loop is a silent no-op when no
person identity resolves. -/
theorem upsert_person_unresolved {pf : List (String × String)}
    (h : resolvedName pf = none) (s : GraphState) :
    (if pf = [] then (s, none) else upsert_person s pf) =
      (s, (none : Option String)) := by
  unfold resolvedName at h
  by_cases hpf : pf = []
  · rw [if_pos hpf]
  · rw [if_neg hpf] at h
    rw [if_neg hpf]
    unfold upsert_person
    rw [h]

/-- The guarded person upsert of the row loop performs the merge when the
person identity resolves. -/
theorem upsert_person_resolved {pf : List (String × String)}
    {n : String} (h : resolvedName pf = some n) (s : GraphState) :
    (if pf = [] then (s, none) else upsert_person s pf) =
      ({ s with
          entities := mergeBy (personHit n)
            (personOnMatch s.clock (personParams pf))
            (personOnCreate s.clock n (personParams pf))
            s.entities,
          clock := s.clock + 1 }, some n) := by
  obtain ⟨hpf, hname⟩ := resolvedName_eq_some h
  rw [if_neg hpf]
  unfold upsert_person
  rw [hname]

/-- The guarded organization upsert of the row loop is a silent no-op when
no organization identity resolves. -/
theorem upsert_organization_unresolved {og : List (String × String)}
    (h : resolvedName og = none) (s : GraphState) :
    (if og = [] then (s, none) else upsert_organization s og) =
      (s, (none : Option String)) := by
  unfold resolvedName at h
  by_cases hog : og = []
  · rw [if_pos hog]
  · rw [if_neg hog] at h
    rw [if_neg hog]
    unfold upsert_organization
    rw [h]

/-- The guarded organization upsert of the row loop performs the merge
when the organization identity resolves. -/
theorem upsert_organization_resolved {og : List (String × String)}
    {n : String} (h : resolvedName og = some n) (s : GraphState) :
    (if og = [] then (s, none) else upsert_organization s og) =
      ({ s with
          entities := mergeBy (orgHit n)
            (orgOnMatch s.clock (clean_str (dictGet "address" og)))
            (orgOnCreate s.clock n (clean_str (dictGet "address" og)))
            s.entities,
          clock := s.clock + 1 }, some n) := by
  obtain ⟨hog, hname⟩ := resolvedName_eq_some h
  rw [if_neg hog]
  unfold upsert_organization
  rw [hname]

/-- Filtering by the Person label is unaffected by the guarded
organization upsert. -/
theorem filter_person_upsert_organization (s : GraphState)
    (og : List (String × String)) :
    ((if og = [] then (s, (none : Option String)) else
      upsert_organization s og).1).entities.filter isPersonB =
      s.entities.filter isPersonB := by
  by_cases hog : og = []
  · rw [if_pos hog]
  · rw [if_neg hog]
    unfold upsert_organization
    cases h : clean_str (dictGet "name" og) with
    | none => rfl
    | some m =>
      apply filter_mergeBy
      · intro x _ hx
        simp only [orgHit, decide_eq_true_eq] at hx
        simp [isPersonB, hx.1]
      · intro x _ hx
        simp only [orgHit, decide_eq_true_eq] at hx
        simp [isPersonB, orgOnMatch, hx.1]
      · simp [isPersonB, orgOnCreate]

/-! ## Claim C6: unresolved person identity is a silent per-record skip -/

/-- Claim C6.  For a processed record whose person group resolves no name
(the name field absent or empty after trimming), no Person node is created
(the stored Person nodes are exactly the previous ones), no edge of any
kind is created for that record, the remaining organization group is still
processed (a resolved organization is upserted), and the row loop
continues without error. -/
theorem C6_unresolved_person_skip :
    ∀ (ru : Rules) (idx : Nat) (desc d : String)
      (flds : List (String × List (String × String))) (s : GraphState),
      clean_str (some desc) = some d →
      extract_fields d ru.field_patterns = .ok flds →
      resolvedName ((dictGet "person" flds).getD []) = none →
      ∃ s', process_row ru idx desc s = .ok s' ∧
        s'.entities.filter isPersonB = s.entities.filter isPersonB ∧
        s'.edges = s.edges ∧
        (∀ m, resolvedName ((dictGet "organization" flds).getD []) = some m →
          entIn s' (orgHit m)) := by
  intro ru idx desc d flds s hd hex hnone
  simp only [process_row, hd, hex]
  rw [upsert_person_unresolved hnone]
  refine ⟨_, rfl, ?_, ?_, ?_⟩
  · have := filter_person_upsert_organization
      (upsert_record s (ru.record_id_prefix ++ toString (idx + 1)) (idx + 1) d)
      ((dictGet "organization" flds).getD [])
    rw [this]
    rfl
  · by_cases hog : (dictGet "organization" flds).getD [] = []
    · rw [if_pos hog]
      rfl
    · rw [if_neg hog]
      rw [upsert_organization_edges]
      rfl
  · intro m hm
    rw [upsert_organization_resolved hm]
    exact exists_hit_mergeBy (by simp) (by simp)

/-- Claim C6, witness: a record whose description carries no name marker
against the empty store, with the concrete name pattern. -/
theorem C6_witness :
    ∃ s', process_row ⟨"DESC_", [("person", [("name", [patName])])], []⟩
        0 "no marker here" emptyGraph = .ok s' ∧
      s'.entities.filter isPersonB = emptyGraph.entities.filter isPersonB ∧
      s'.edges = emptyGraph.edges ∧
      (∀ m, resolvedName ((dictGet "organization"
          [("person", []), ("organization", [])]).getD []) = some m →
        entIn s' (orgHit m)) :=
  C6_unresolved_person_skip ⟨"DESC_", [("person", [("name", [patName])])], []⟩
    0 "no marker here" "no marker here" [("person", []), ("organization", [])]
    emptyGraph (by decide) (by decide) (by decide)

/-! ## More merge and loop lemmas -/

/-- A merge whose update clause is invisible to a predicate and whose
created element falsifies it leaves the predicate-witness question
unchanged. -/
theorem exists_mergeBy_iff {p hit : α → Bool} {upd : α → α} {mk : α} {l : List α}
    (hupd : ∀ x, p (upd x) = p x) (hmk : p mk = false) :
    (∃ y ∈ mergeBy hit upd mk l, p y = true) ↔ (∃ x ∈ l, p x = true) := by
  constructor
  · rintro ⟨y, hy, hp⟩
    rcases mem_mergeBy hy with h | ⟨x, hx, _, rfl⟩ | rfl
    · exact ⟨y, h, hp⟩
    · exact ⟨x, hx, (hupd x) ▸ hp⟩
    · rw [hmk] at hp
      exact absurd hp (by simp)
  · intro h
    exact exists_mergeBy_of_exists h (fun x hx => (hupd x).trans hx)

/-- Entity presence for a pattern untouched by the location ON MATCH
clause survives the whole locations loop. -/
theorem entIn_locations {hit2 : EntityNode → Bool}
    (hinv : ∀ (now : Nat) (e : EntityNode), hit2 (locOnMatch now e) = hit2 e)
    (m : List (String × String)) (pn : String) (pf : List (String × String))
    {s : GraphState} (h : entIn s hit2) :
    entIn (connect_person_to_locations s m pn pf) hit2 := by
  induction m generalizing s with
  | nil => exact h
  | cons a rest ih =>
    unfold connect_person_to_locations
    cases clean_str (dictGet a.1 pf) with
    | none => exact ih h
    | some ln =>
      apply ih
      have h1 : entIn (upsert_location s ln) hit2 := by
        unfold upsert_location
        split
        · exact h
        · exact exists_mergeBy_of_exists h (fun x hx => (hinv s.clock x).trans hx)
      unfold connect_location_edge
      split
      · exact h1
      · exact h1

/-- Edge presence for a pattern untouched by the edge ON MATCH clause
survives the whole locations loop. -/
theorem edgeIn_locations {hit2 : Edge → Bool}
    (hinv : ∀ (now : Nat) (g : Edge), hit2 (edgeOnMatch now g) = hit2 g)
    (m : List (String × String)) (pn : String) (pf : List (String × String))
    {s : GraphState} (h : edgeIn s hit2) :
    edgeIn (connect_person_to_locations s m pn pf) hit2 := by
  induction m generalizing s with
  | nil => exact h
  | cons a rest ih =>
    unfold connect_person_to_locations
    cases clean_str (dictGet a.1 pf) with
    | none => exact ih h
    | some ln =>
      apply ih
      have h1 : edgeIn (upsert_location s ln) hit2 := by
        rw [edgeIn, upsert_location_edges]
        exact h
      unfold connect_location_edge
      split
      · exact exists_mergeBy_of_exists h1
          (fun x hx => (hinv (upsert_location s ln).clock x).trans hx)
      · exact h1

/-- Edge presence for a pattern that no location edge creation can
satisfy is completely unchanged by the locations loop. -/
theorem edgeIn_locations_iff {hit2 : Edge → Bool}
    (hinv : ∀ (now : Nat) (g : Edge), hit2 (edgeOnMatch now g) = hit2 g)
    (hmk : ∀ (now : Nat) (pn rt ln : String),
      hit2 (locEdgeOnCreate now pn rt ln) = false)
    (m : List (String × String)) (pn : String) (pf : List (String × String))
    (s : GraphState) :
    edgeIn (connect_person_to_locations s m pn pf) hit2 ↔ edgeIn s hit2 := by
  induction m generalizing s with
  | nil => exact Iff.rfl
  | cons a rest ih =>
    unfold connect_person_to_locations
    cases clean_str (dictGet a.1 pf) with
    | none => exact ih s
    | some ln =>
      rw [ih]
      unfold connect_location_edge
      split
      · show (∃ g ∈ mergeBy _ _ _ _, hit2 g = true) ↔ _
        rw [exists_mergeBy_iff (fun x => hinv _ x) (hmk _ _ _ _),
          upsert_location_edges]
        exact Iff.rfl
      · show edgeIn (upsert_location s ln) hit2 ↔ _
        rw [edgeIn, upsert_location_edges]
        exact Iff.rfl

/-- Filtering by the Organization label is unaffected by the guarded
person upsert. -/
theorem filter_org_upsert_person (s : GraphState) (pf : List (String × String)) :
    ((if pf = [] then (s, (none : Option String)) else
      upsert_person s pf).1).entities.filter isOrgB =
      s.entities.filter isOrgB := by
  by_cases hpf : pf = []
  · rw [if_pos hpf]
  · rw [if_neg hpf]
    unfold upsert_person
    cases h : clean_str (dictGet "name" pf) with
    | none => rfl
    | some n =>
      apply filter_mergeBy
      · intro x _ hx
        simp only [personHit, decide_eq_true_eq] at hx
        simp [isOrgB, hx.1]
      · intro x _ hx
        simp only [personHit, decide_eq_true_eq] at hx
        simp [isOrgB, personOnMatch, hx.1]
      · simp [isOrgB, personOnCreate]

/-- Filtering by the Organization label is unaffected by the locations
loop. -/
theorem filter_org_locations (m : List (String × String)) (pn : String)
    (pf : List (String × String)) (s : GraphState) :
    (connect_person_to_locations s m pn pf).entities.filter isOrgB =
      s.entities.filter isOrgB := by
  induction m generalizing s with
  | nil => rfl
  | cons a rest ih =>
    unfold connect_person_to_locations
    cases clean_str (dictGet a.1 pf) with
    | none => exact ih s
    | some ln =>
      rw [ih, connect_location_edge_entities]
      unfold upsert_location
      split
      · rfl
      · apply filter_mergeBy
        · intro x _ hx
          simp only [locHit, decide_eq_true_eq] at hx
          simp [isOrgB, hx.1]
        · intro x _ hx
          simp only [locHit, decide_eq_true_eq] at hx
          simp [isOrgB, locOnMatch, hx.1]
        · simp [isOrgB, locOnCreate]

@[simp] theorem recordHit_recordOnCreate (rid : String) (now : Nat) (i : Nat)
    (d : String) : recordHit rid (recordOnCreate now rid i d) = true := by
  simp [recordHit, recordOnCreate]

theorem assocHit_assocOnCreate_iff (p o n m : String) (now : Nat) :
    assocHit p o (assocOnCreate now n m) = true ↔ (n = p ∧ m = o) := by
  simp [assocHit, assocOnCreate]

/-- Presence of an edge pattern across the DESCRIBES merge, when the
created DESCRIBES edge cannot satisfy the pattern. -/
theorem edgeIn_connect_record_iff {hit2 : Edge → Bool} {rid n : String}
    (hmk : hit2 (describesOnCreate rid n) = false) (s : GraphState) :
    edgeIn (connect_record_to_person s rid n) hit2 ↔ edgeIn s hit2 := by
  unfold connect_record_to_person
  split
  · exact exists_mergeBy_iff (fun x => rfl) hmk
  · exact Iff.rfl

/-- Presence of an edge pattern across the ASSOCIATED_WITH_ORG merge when
both endpoint MATCHes succeed: an edge pattern holds afterwards exactly
when it held before or the created association satisfies it. -/
theorem edgeIn_assoc_merge (p o n m : String) (now : Nat) (l : List Edge) :
    (∃ g ∈ mergeBy (assocHit n m) (edgeOnMatch now) (assocOnCreate now n m) l,
        assocHit p o g = true) ↔
      ((∃ g ∈ l, assocHit p o g = true) ∨ (n = p ∧ m = o)) := by
  constructor
  · rintro ⟨g, hg, hpo⟩
    rcases mem_mergeBy hg with h | ⟨x, hx, _, rfl⟩ | rfl
    · exact Or.inl ⟨g, h, hpo⟩
    · rw [assocHit_edgeOnMatch] at hpo
      exact Or.inl ⟨x, hx, hpo⟩
    · exact Or.inr ((assocHit_assocOnCreate_iff p o n m now).1 hpo)
  · rintro (h | ⟨rfl, rfl⟩)
    · exact exists_mergeBy_of_exists h
        (fun x hx => (assocHit_edgeOnMatch p o now x).trans hx)
    · exact exists_hit_mergeBy (by simp) (by simp)

theorem entIn_congr {s t : GraphState} (h : s.entities = t.entities)
    (hit : EntityNode → Bool) : entIn s hit ↔ entIn t hit := by
  rw [entIn, entIn, h]

theorem edgeIn_congr {s t : GraphState} (h : s.edges = t.edges)
    (hit : Edge → Bool) : edgeIn s hit ↔ edgeIn t hit := by
  rw [edgeIn, edgeIn, h]

/-- Row processing with an unresolved person identity: the run continues
and no edge whatsoever is written. -/
theorem process_row_unresolved_run (ru : Rules) (idx : Nat) {desc d : String}
    {flds : List (String × List (String × String))} (s : GraphState)
    (hd : clean_str (some desc) = some d)
    (hex : extract_fields d ru.field_patterns = .ok flds)
    (hp : resolvedName ((dictGet "person" flds).getD []) = none) :
    ∃ s', process_row ru idx desc s = .ok s' ∧ s'.edges = s.edges := by
  simp only [process_row, hd, hex, upsert_person_unresolved hp]
  refine ⟨_, rfl, ?_⟩
  by_cases hog : (dictGet "organization" flds).getD [] = []
  · rw [if_pos hog]
    rfl
  · rw [if_neg hog, upsert_organization_edges]
    rfl

/-- All the facts delivered by the connect phase of a row whose person
identity resolved: the person stays present, the DESCRIBES edge is
present, and the association edges are untouched. -/
theorem connects_facts (S : GraphState) (rid pn : String)
    (relMap : List (String × String)) (pf : List (String × String))
    (hrec : S.records.any (recordHit rid) = true)
    (hper : entIn S (personHit pn)) :
    entIn (connect_person_to_locations (connect_record_to_person S rid pn)
      relMap pn pf) (personHit pn) ∧
    edgeIn (connect_person_to_locations (connect_record_to_person S rid pn)
      relMap pn pf) (describesHit rid pn) ∧
    (∀ p o, edgeIn (connect_person_to_locations (connect_record_to_person S rid pn)
        relMap pn pf) (assocHit p o) ↔ edgeIn S (assocHit p o)) := by
  have hg : (S.records.any (recordHit rid) && S.entities.any (personHit pn)) = true := by
    rw [Bool.and_eq_true]
    exact ⟨hrec, List.any_eq_true.2 hper⟩
  refine ⟨?_, ?_, ?_⟩
  · apply entIn_locations (fun now e => personHit_locOnMatch pn now e)
    exact (entIn_congr (connect_record_to_person_entities _ _ _) _).2 hper
  · apply edgeIn_locations (fun now g => describesHit_edgeOnMatch _ _ now g)
    unfold connect_record_to_person
    rw [if_pos hg]
    show ∃ g ∈ mergeBy (describesHit rid pn) id (describesOnCreate rid pn) S.edges,
      describesHit rid pn g = true
    exact exists_hit_mergeBy (describesHit_describesOnCreate _ _) (fun x h => h)
  · intro p o
    rw [edgeIn_locations_iff (fun now g => assocHit_edgeOnMatch p o now g)
      (fun now a rt ln => assocHit_locEdgeOnCreate p o now a rt ln),
      edgeIn_connect_record_iff (assocHit_describesOnCreate p o _ _)]

/-- Appending the organization connect to the tail of a both-resolved
row: both entities stay present, the DESCRIBES edge stays present, and
the association edges are the previous ones plus exactly the resolved
pair. -/
theorem tail_both_facts (S : GraphState) (rid n m : String)
    (relMap : List (String × String)) (pf : List (String × String))
    (hrec : S.records.any (recordHit rid) = true)
    (hper : entIn S (personHit n))
    (horg : entIn S (orgHit m)) :
    entIn (connect_person_to_org
      (connect_person_to_locations (connect_record_to_person S rid n) relMap n pf)
      n m) (personHit n) ∧
    entIn (connect_person_to_org
      (connect_person_to_locations (connect_record_to_person S rid n) relMap n pf)
      n m) (orgHit m) ∧
    edgeIn (connect_person_to_org
      (connect_person_to_locations (connect_record_to_person S rid n) relMap n pf)
      n m) (describesHit rid n) ∧
    (∀ p o, edgeIn (connect_person_to_org
        (connect_person_to_locations (connect_record_to_person S rid n) relMap n pf)
        n m) (assocHit p o) ↔
      (edgeIn S (assocHit p o) ∨ (n = p ∧ m = o))) := by
  obtain ⟨f1, f2, f3⟩ := connects_facts S rid n relMap pf hrec hper
  have forg5 : entIn (connect_person_to_locations (connect_record_to_person S rid n)
      relMap n pf) (orgHit m) := by
    apply entIn_locations (fun now e => orgHit_locOnMatch m now e)
    exact (entIn_congr (connect_record_to_person_entities _ _ _) _).2 horg
  have hguard : ((connect_person_to_locations (connect_record_to_person S rid n)
        relMap n pf).entities.any (personHit n) &&
      (connect_person_to_locations (connect_record_to_person S rid n)
        relMap n pf).entities.any (orgHit m)) = true := by
    rw [Bool.and_eq_true]
    exact ⟨List.any_eq_true.2 f1, List.any_eq_true.2 forg5⟩
  refine ⟨?_, ?_, ?_, ?_⟩
  · exact (entIn_congr (connect_person_to_org_entities _ _ _) _).2 f1
  · exact (entIn_congr (connect_person_to_org_entities _ _ _) _).2 forg5
  · unfold connect_person_to_org
    rw [if_pos hguard]
    exact exists_mergeBy_of_exists f2
      (fun x hx => by rw [describesHit_edgeOnMatch]; exact hx)
  · intro p o
    unfold connect_person_to_org
    rw [if_pos hguard]
    refine Iff.trans (edgeIn_assoc_merge p o n m _ _) ?_
    exact or_congr (f3 p o) Iff.rfl

/-- The organization filter across the connect phase. -/
theorem connects_filter_org (S : GraphState) (rid pn : String)
    (relMap : List (String × String)) (pf : List (String × String)) :
    (connect_person_to_locations (connect_record_to_person S rid pn)
      relMap pn pf).entities.filter isOrgB = S.entities.filter isOrgB := by
  rw [filter_org_locations, connect_record_to_person_entities]

/-- Row processing with a resolved person and an unresolved organization:
the organization filter and the associations are untouched, the person is
present and so is its DESCRIBES edge. -/
theorem process_row_person_only_run (ru : Rules) (idx : Nat) {desc d : String}
    {flds : List (String × List (String × String))} (s : GraphState) {n : String}
    (hd : clean_str (some desc) = some d)
    (hex : extract_fields d ru.field_patterns = .ok flds)
    (hp : resolvedName ((dictGet "person" flds).getD []) = some n)
    (ho : resolvedName ((dictGet "organization" flds).getD []) = none) :
    ∃ s', process_row ru idx desc s = .ok s' ∧
      s'.entities.filter isOrgB = s.entities.filter isOrgB ∧
      entIn s' (personHit n) ∧
      edgeIn s' (describesHit (ru.record_id_prefix ++ toString (idx + 1)) n) ∧
      (∀ p o, edgeIn s' (assocHit p o) ↔ edgeIn s (assocHit p o)) := by
  simp only [process_row, hd, hex, upsert_person_resolved hp,
    upsert_organization_unresolved ho]
  refine ⟨_, rfl, ?_, ?_⟩
  · rw [connects_filter_org]
    exact filter_mergeBy
      (fun x _ hx => by
        simp only [personHit, decide_eq_true_eq] at hx
        simp [isOrgB, hx.1])
      (fun x _ hx => by
        simp only [personHit, decide_eq_true_eq] at hx
        simp [isOrgB, personOnMatch, hx.1])
      (by simp [isOrgB, personOnCreate])
  · exact connects_facts _ _ _ _ _
      (List.any_eq_true.2 (exists_hit_mergeBy (by simp) (by simp)))
      (exists_hit_mergeBy (by simp) (by simp))

/-- Row processing with both identities resolved: person and organization
nodes present, the DESCRIBES edge present, and the associations are the
previous ones plus exactly the resolved pair. -/
theorem process_row_both_resolved_run (ru : Rules) (idx : Nat) {desc d : String}
    {flds : List (String × List (String × String))} (s : GraphState) {n m : String}
    (hd : clean_str (some desc) = some d)
    (hex : extract_fields d ru.field_patterns = .ok flds)
    (hp : resolvedName ((dictGet "person" flds).getD []) = some n)
    (ho : resolvedName ((dictGet "organization" flds).getD []) = some m) :
    ∃ s', process_row ru idx desc s = .ok s' ∧
      entIn s' (personHit n) ∧ entIn s' (orgHit m) ∧
      edgeIn s' (describesHit (ru.record_id_prefix ++ toString (idx + 1)) n) ∧
      (∀ p o, edgeIn s' (assocHit p o) ↔
        (edgeIn s (assocHit p o) ∨ (n = p ∧ m = o))) := by
  simp only [process_row, hd, hex, upsert_person_resolved hp,
    upsert_organization_resolved ho]
  refine ⟨_, rfl, ?_⟩
  exact tail_both_facts _ _ _ _ _ _
    (List.any_eq_true.2 (exists_hit_mergeBy (by simp) (by simp)))
    (exists_mergeBy_of_exists (exists_hit_mergeBy (by simp) (by simp))
      (fun x hx => by rw [personHit_orgOnMatch]; exact hx))
    (exists_hit_mergeBy (by simp) (by simp))

/-! ## Claim C9: organization is optional, association needs both -/

/-- Claim C9.  First part: for a processed record whose person identity
resolves but whose organization group resolves nothing, no Organization
node is created (the stored Organization nodes are exactly the previous
ones) and the stored associations are exactly the previous ones, while the
Person node and the Record to Person DESCRIBES edge are present
afterwards.  Second part: for any processed record, an association edge is
present afterwards exactly when it was present before or both the person
and the organization identities of the record resolved to its endpoints. -/
theorem C9_org_optional_assoc_exact :
    (∀ (ru : Rules) (idx : Nat) (desc d : String)
      (flds : List (String × List (String × String))) (s : GraphState) (n : String),
      clean_str (some desc) = some d →
      extract_fields d ru.field_patterns = .ok flds →
      resolvedName ((dictGet "person" flds).getD []) = some n →
      resolvedName ((dictGet "organization" flds).getD []) = none →
      ∃ s', process_row ru idx desc s = .ok s' ∧
        s'.entities.filter isOrgB = s.entities.filter isOrgB ∧
        entIn s' (personHit n) ∧
        edgeIn s' (describesHit (ru.record_id_prefix ++ toString (idx + 1)) n) ∧
        (∀ p o, edgeIn s' (assocHit p o) ↔ edgeIn s (assocHit p o))) ∧
    (∀ (ru : Rules) (idx : Nat) (desc d : String)
      (flds : List (String × List (String × String))) (s s' : GraphState),
      clean_str (some desc) = some d →
      extract_fields d ru.field_patterns = .ok flds →
      process_row ru idx desc s = .ok s' →
      ∀ p o, edgeIn s' (assocHit p o) ↔
        (edgeIn s (assocHit p o) ∨
          (resolvedName ((dictGet "person" flds).getD []) = some p ∧
           resolvedName ((dictGet "organization" flds).getD []) = some o))) := by
  constructor
  · intro ru idx desc d flds s n hd hex hp ho
    exact process_row_person_only_run ru idx s hd hex hp ho
  · intro ru idx desc d flds s s' hd hex hrun p o
    cases hp : resolvedName ((dictGet "person" flds).getD []) with
    | none =>
      obtain ⟨t, ht, hedges⟩ := process_row_unresolved_run ru idx s hd hex hp
      rw [ht] at hrun
      obtain rfl := Except.ok.inj hrun
      simp only [hp, reduceCtorEq, false_and, or_false]
      exact edgeIn_congr hedges _
    | some n =>
      cases ho : resolvedName ((dictGet "organization" flds).getD []) with
      | none =>
        obtain ⟨t, ht, _, _, _, hiff⟩ :=
          process_row_person_only_run ru idx s hd hex hp ho
        rw [ht] at hrun
        obtain rfl := Except.ok.inj hrun
        rw [hiff p o]
        simp [hp, ho]
      | some m =>
        obtain ⟨t, ht, _, _, _, hiff⟩ :=
          process_row_both_resolved_run ru idx s hd hex hp ho
        rw [ht] at hrun
        obtain rfl := Except.ok.inj hrun
        rw [hiff p o]
        simp [hp, ho]

/-- Claim C9, witness: a concrete record naming John with no organization
fields, processed against the empty store. -/
theorem C9_witness :
    ∃ s', process_row ⟨"DESC_", [("person", [("name", [patName])])], []⟩
        0 "NAME: John" emptyGraph = .ok s' ∧
      s'.entities.filter isOrgB = emptyGraph.entities.filter isOrgB ∧
      entIn s' (personHit "John") ∧
      edgeIn s' (describesHit ("DESC_" ++ toString (0 + 1)) "John") ∧
      (∀ p o, edgeIn s' (assocHit p o) ↔ edgeIn emptyGraph (assocHit p o)) :=
  C9_org_optional_assoc_exact.1 ⟨"DESC_", [("person", [("name", [patName])])], []⟩
    0 "NAME: John" "NAME: John"
    [("person", [("name", "John")]), ("organization", [])] emptyGraph "John"
    (by decide) (by decide) (by decide) (by decide)

/-! ## Claim C8: the location map drives location nodes and edges -/

theorem clean_str_some_ne {v : Option String} {L : String}
    (h : clean_str v = some L) : ¬ L = "" := by
  cases v with
  | none => simp [clean_str] at h
  | some x =>
    simp only [clean_str] at h
    by_cases hx : pyStrip x = ""
    · rw [if_pos hx] at h
      exact absurd h (by simp)
    · rw [if_neg hx] at h
      intro hL
      rw [hL] at h
      exact hx (Option.some.inj h)

theorem entIn_upsert_location_person (pn ln : String) {s : GraphState}
    (h : entIn s (personHit pn)) : entIn (upsert_location s ln) (personHit pn) := by
  unfold upsert_location
  split
  · exact h
  · exact exists_mergeBy_of_exists h
      (fun x hx => by rw [personHit_locOnMatch]; exact hx)

theorem entIn_upsert_location_self {ln : String} (hne : ¬ ln = "")
    (s : GraphState) : entIn (upsert_location s ln) (locHit ln) := by
  unfold upsert_location
  rw [if_neg hne]
  exact exists_hit_mergeBy (by simp) (by simp)

/-- For every mapped pair whose field has a non-empty cleaned value, the
loop leaves a Location node keyed by the value and a Person to Location
edge of the mapped type. -/
theorem locations_establish (relMap : List (String × String)) (pn : String)
    (pf : List (String × String)) :
    ∀ (s : GraphState), entIn s (personHit pn) →
      ∀ fk rt, (fk, rt) ∈ relMap → ∀ L, clean_str (dictGet fk pf) = some L →
        entIn (connect_person_to_locations s relMap pn pf) (locHit L) ∧
        edgeIn (connect_person_to_locations s relMap pn pf) (locEdgeHit pn rt L) := by
  induction relMap with
  | nil =>
    intro s _ fk rt h
    exact absurd h (List.not_mem_nil _)
  | cons a rest ih =>
    intro s hper fk rt hmem L hL
    rcases List.mem_cons.1 hmem with heq | hrest
    · obtain ⟨fk0, rt0⟩ := a
      cases heq
      unfold connect_person_to_locations
      simp only [hL]
      have hloc : entIn (upsert_location s L) (locHit L) :=
        entIn_upsert_location_self (clean_str_some_ne hL) s
      have hper2 : entIn (upsert_location s L) (personHit pn) :=
        entIn_upsert_location_person pn L hper
      have hg : ((upsert_location s L).entities.any (personHit pn) &&
          (upsert_location s L).entities.any (locHit L)) = true := by
        rw [Bool.and_eq_true]
        exact ⟨List.any_eq_true.2 hper2, List.any_eq_true.2 hloc⟩
      constructor
      · apply entIn_locations (fun now e => locHit_locOnMatch L now e)
        refine (entIn_congr (connect_location_edge_entities _ _ _ _) _).2 ?_
        exact hloc
      · apply edgeIn_locations (fun now g => locEdgeHit_edgeOnMatch pn rt L now g)
        unfold connect_location_edge
        rw [if_pos hg]
        show ∃ g ∈ mergeBy (locEdgeHit pn rt L) (edgeOnMatch (upsert_location s L).clock)
          (locEdgeOnCreate (upsert_location s L).clock pn rt L)
          (upsert_location s L).edges, locEdgeHit pn rt L g = true
        exact exists_hit_mergeBy (locEdgeHit_locEdgeOnCreate pn rt L _)
          (fun x hx => by rw [locEdgeHit_edgeOnMatch]; exact hx)
    · unfold connect_person_to_locations
      cases hc : clean_str (dictGet a.1 pf) with
      | none => exact ih s hper fk rt hrest L hL
      | some ln =>
        refine ih _ ?_ fk rt hrest L hL
        refine (entIn_congr (connect_location_edge_entities _ _ _ _) _).2 ?_
        exact entIn_upsert_location_person pn ln hper

/-- Every edge the loop adds has the person as source, a relationship
type from the map, and the Location keyed by the corresponding cleaned
field value as target. -/
theorem locations_new_edges (relMap : List (String × String)) (pn : String)
    (pf : List (String × String)) :
    ∀ (s : GraphState) (g : Edge),
      g ∈ (connect_person_to_locations s relMap pn pf).edges → g ∉ s.edges →
      ∃ fk rt, (fk, rt) ∈ relMap ∧ ∃ L, clean_str (dictGet fk pf) = some L ∧
        g.src = .entityNode "PERSON" pn ∧ g.rel_type = rt ∧
        g.dst = .entityNode "GPE" L := by
  induction relMap with
  | nil =>
    intro s g hg hns
    exact absurd hg hns
  | cons a rest ih =>
    intro s g hg hns
    simp only [connect_person_to_locations] at hg
    cases hc : clean_str (dictGet a.1 pf) with
    | none =>
      rw [hc] at hg
      obtain ⟨fk, rt, hm, L, hL, hsh⟩ := ih s g hg hns
      exact ⟨fk, rt, List.mem_cons_of_mem _ hm, L, hL, hsh⟩
    | some ln =>
      rw [hc] at hg
      by_cases h2 : g ∈ (connect_location_edge (upsert_location s ln) pn a.2 ln).edges
      · have hstep : g ∈ s.edges ∨
            (g.src = .entityNode "PERSON" pn ∧ g.rel_type = a.2 ∧
             g.dst = .entityNode "GPE" ln) := by
          revert h2
          unfold connect_location_edge
          split
          · intro h2
            rcases mem_mergeBy h2 with hold | ⟨x, hx, hhit, rfl⟩ | rfl
            · rw [upsert_location_edges] at hold
              exact Or.inl hold
            · simp only [locEdgeHit, decide_eq_true_eq] at hhit
              exact Or.inr ⟨hhit.1, hhit.2.1, hhit.2.2⟩
            · exact Or.inr ⟨rfl, rfl, rfl⟩
          · intro h2
            rw [upsert_location_edges] at h2
            exact Or.inl h2
        rcases hstep with hold | hsh
        · exact absurd hold hns
        · exact ⟨a.1, a.2, List.mem_cons_self _ _, ln, hc, hsh⟩
      · obtain ⟨fk, rt, hm, L, hL, hsh⟩ := ih _ g hg h2
        exact ⟨fk, rt, List.mem_cons_of_mem _ hm, L, hL, hsh⟩

/-- Claim C8.  For every pair of field and relationship type in the rules
location map: if the field has a non-empty cleaned value in the extracted
person fields and the Person endpoint exists, then after the loop a
Location entity keyed by that value exists (the loop upserts it before its
edge, by definition of `connect_person_to_locations`) and a directed
Person to Location edge of the mapped type exists; conversely, every edge
the loop adds has the person as source and a type drawn from the declared
mapping with the corresponding field value as its Location target — never
a type constructed from record content. -/
theorem C8_location_map_drives_edges :
    (∀ (s : GraphState) (relMap : List (String × String)) (pn : String)
        (pf : List (String × String)),
      entIn s (personHit pn) →
      ∀ fk rt, (fk, rt) ∈ relMap → ∀ L, clean_str (dictGet fk pf) = some L →
        entIn (connect_person_to_locations s relMap pn pf) (locHit L) ∧
        edgeIn (connect_person_to_locations s relMap pn pf) (locEdgeHit pn rt L)) ∧
    (∀ (s : GraphState) (relMap : List (String × String)) (pn : String)
        (pf : List (String × String)) (g : Edge),
      g ∈ (connect_person_to_locations s relMap pn pf).edges → g ∉ s.edges →
      ∃ fk rt, (fk, rt) ∈ relMap ∧ ∃ L, clean_str (dictGet fk pf) = some L ∧
        g.src = .entityNode "PERSON" pn ∧ g.rel_type = rt ∧
        g.dst = .entityNode "GPE" L) :=
  ⟨fun s relMap pn pf hper fk rt hm L hL =>
      locations_establish relMap pn pf s hper fk rt hm L hL,
   fun s relMap pn pf g hg hns => locations_new_edges relMap pn pf s g hg hns⟩

/-- Claim C8, witness: a departure location mapped to DEPARTED_FROM on
the concrete store holding John. -/
theorem C8_witness :
    entIn (connect_person_to_locations sampleState
      [("departure_location", "DEPARTED_FROM")] "John"
      [("departure_location", "JFK")]) (locHit "JFK") ∧
    edgeIn (connect_person_to_locations sampleState
      [("departure_location", "DEPARTED_FROM")] "John"
      [("departure_location", "JFK")]) (locEdgeHit "John" "DEPARTED_FROM" "JFK") :=
  C8_location_map_drives_edges.1 sampleState
    [("departure_location", "DEPARTED_FROM")] "John"
    [("departure_location", "JFK")] ⟨samplePerson, by decide, by decide⟩
    "departure_location" "DEPARTED_FROM" (by decide) "JFK" (by decide)

/-! ## Claim C3: the merge key is globally unique -/

@[simp] theorem entKey_personOnMatch (now : Nat) (q : PersonParams) (e : EntityNode) :
    entKey (personOnMatch now q e) = entKey e := rfl

@[simp] theorem entKey_orgOnMatch (now : Nat) (a : Option String) (e : EntityNode) :
    entKey (orgOnMatch now a e) = entKey e := rfl

@[simp] theorem entKey_locOnMatch (now : Nat) (e : EntityNode) :
    entKey (locOnMatch now e) = entKey e := rfl

theorem personHit_of_key {x : EntityNode} {n : String} {now : Nat} {q : PersonParams}
    (h : entKey x = entKey (personOnCreate now n q)) : personHit n x = true := by
  simp only [entKey, personOnCreate, Prod.mk.injEq] at h
  simp [personHit, h.1, h.2]

theorem orgHit_of_key {x : EntityNode} {n : String} {now : Nat} {a : Option String}
    (h : entKey x = entKey (orgOnCreate now n a)) : orgHit n x = true := by
  simp only [entKey, orgOnCreate, Prod.mk.injEq] at h
  simp [orgHit, h.1, h.2]

theorem locHit_of_key {x : EntityNode} {n : String} {now : Nat}
    (h : entKey x = entKey (locOnCreate now n)) : locHit n x = true := by
  simp only [entKey, locOnCreate, Prod.mk.injEq] at h
  simp [locHit, h.1, h.2]

theorem unique_mergeBy_person (n : String) (now : Nat) (q : PersonParams)
    {l : List EntityNode} (hu : l.Pairwise (fun a b => entKey a ≠ entKey b)) :
    (mergeBy (personHit n) (personOnMatch now q) (personOnCreate now n q)
      l).Pairwise (fun a b => entKey a ≠ entKey b) :=
  pairwise_mergeBy (fun _ => rfl) (fun _ hx => personHit_of_key hx) hu

theorem unique_mergeBy_org (n : String) (now : Nat) (a : Option String)
    {l : List EntityNode} (hu : l.Pairwise (fun a b => entKey a ≠ entKey b)) :
    (mergeBy (orgHit n) (orgOnMatch now a) (orgOnCreate now n a)
      l).Pairwise (fun a b => entKey a ≠ entKey b) :=
  pairwise_mergeBy (fun _ => rfl) (fun _ hx => orgHit_of_key hx) hu

theorem unique_mergeBy_loc (n : String) (now : Nat)
    {l : List EntityNode} (hu : l.Pairwise (fun a b => entKey a ≠ entKey b)) :
    (mergeBy (locHit n) (locOnMatch now) (locOnCreate now n)
      l).Pairwise (fun a b => entKey a ≠ entKey b) :=
  pairwise_mergeBy (fun _ => rfl) (fun _ hx => locHit_of_key hx) hu

theorem unique_locations (m : List (String × String)) (pn : String)
    (pf : List (String × String)) :
    ∀ {s : GraphState},
      s.entities.Pairwise (fun a b => entKey a ≠ entKey b) →
      (connect_person_to_locations s m pn pf).entities.Pairwise
        (fun a b => entKey a ≠ entKey b) := by
  induction m with
  | nil => intro s h; exact h
  | cons a rest ih =>
    intro s h
    unfold connect_person_to_locations
    cases clean_str (dictGet a.1 pf) with
    | none => exact ih h
    | some ln =>
      apply ih
      rw [connect_location_edge_entities]
      unfold upsert_location
      split
      · exact h
      · exact unique_mergeBy_loc ln _ h

theorem process_row_preserves_unique {ru : Rules} {idx : Nat} {d : String}
    {s s' : GraphState} (h : process_row ru idx d s = .ok s')
    (hu : s.entities.Pairwise (fun a b => entKey a ≠ entKey b)) :
    s'.entities.Pairwise (fun a b => entKey a ≠ entKey b) := by
  cases hd : clean_str (some d) with
  | none =>
    simp only [process_row, hd] at h
    obtain rfl := Except.ok.inj h
    exact hu
  | some dd =>
    cases hex : extract_fields dd ru.field_patterns with
    | error e =>
      simp only [process_row, hd, hex] at h
      exact Except.noConfusion h
    | ok flds =>
      cases hp : resolvedName ((dictGet "person" flds).getD []) with
      | none =>
        simp only [process_row, hd, hex, upsert_person_unresolved hp] at h
        by_cases hog : (dictGet "organization" flds).getD [] = []
        · rw [if_pos hog] at h
          obtain rfl := Except.ok.inj h
          exact hu
        · rw [if_neg hog] at h
          obtain rfl := Except.ok.inj h
          show (upsert_organization _ _).1.entities.Pairwise _
          unfold upsert_organization
          split
          · exact hu
          · exact unique_mergeBy_org _ _ _ hu
      | some n =>
        cases ho : resolvedName ((dictGet "organization" flds).getD []) with
        | none =>
          simp only [process_row, hd, hex, upsert_person_resolved hp,
            upsert_organization_unresolved ho] at h
          obtain rfl := Except.ok.inj h
          apply unique_locations
          rw [connect_record_to_person_entities]
          exact unique_mergeBy_person n _ _ hu
        | some m =>
          simp only [process_row, hd, hex, upsert_person_resolved hp,
            upsert_organization_resolved ho] at h
          obtain rfl := Except.ok.inj h
          rw [connect_person_to_org_entities]
          apply unique_locations
          rw [connect_record_to_person_entities]
          exact unique_mergeBy_org m _ _ (unique_mergeBy_person n _ _ hu)

theorem process_row_preserves_entIn {hit2 : EntityNode → Bool}
    (h1 : ∀ (now : Nat) (q : PersonParams) (e : EntityNode),
      hit2 (personOnMatch now q e) = hit2 e)
    (h2 : ∀ (now : Nat) (a : Option String) (e : EntityNode),
      hit2 (orgOnMatch now a e) = hit2 e)
    (h3 : ∀ (now : Nat) (e : EntityNode), hit2 (locOnMatch now e) = hit2 e)
    {ru : Rules} {idx : Nat} {d : String} {s s' : GraphState}
    (h : process_row ru idx d s = .ok s') (hin : entIn s hit2) : entIn s' hit2 := by
  cases hd : clean_str (some d) with
  | none =>
    simp only [process_row, hd] at h
    obtain rfl := Except.ok.inj h
    exact hin
  | some dd =>
    cases hex : extract_fields dd ru.field_patterns with
    | error e =>
      simp only [process_row, hd, hex] at h
      exact Except.noConfusion h
    | ok flds =>
      cases hp : resolvedName ((dictGet "person" flds).getD []) with
      | none =>
        simp only [process_row, hd, hex, upsert_person_unresolved hp] at h
        by_cases hog : (dictGet "organization" flds).getD [] = []
        · rw [if_pos hog] at h
          obtain rfl := Except.ok.inj h
          exact hin
        · rw [if_neg hog] at h
          obtain rfl := Except.ok.inj h
          show entIn (upsert_organization _ _).1 hit2
          unfold upsert_organization
          split
          · exact hin
          · exact exists_mergeBy_of_exists hin
              (fun x hx => by rw [h2]; exact hx)
      | some n =>
        have hstep : ∀ (q : PersonParams) (now : Nat),
            ∃ e ∈ mergeBy (personHit n) (personOnMatch now q)
              (personOnCreate now n q) s.entities, hit2 e = true :=
          fun q now => exists_mergeBy_of_exists hin (fun x hx => by rw [h1]; exact hx)
        cases ho : resolvedName ((dictGet "organization" flds).getD []) with
        | none =>
          simp only [process_row, hd, hex, upsert_person_resolved hp,
            upsert_organization_unresolved ho] at h
          obtain rfl := Except.ok.inj h
          apply entIn_locations h3
          refine (entIn_congr (connect_record_to_person_entities _ _ _) _).2 ?_
          exact hstep _ _
        | some m =>
          simp only [process_row, hd, hex, upsert_person_resolved hp,
            upsert_organization_resolved ho] at h
          obtain rfl := Except.ok.inj h
          refine (entIn_congr (connect_person_to_org_entities _ _ _) _).2 ?_
          apply entIn_locations h3
          refine (entIn_congr (connect_record_to_person_entities _ _ _) _).2 ?_
          exact exists_mergeBy_of_exists (hstep _ _)
            (fun x hx => by rw [h2]; exact hx)

theorem process_rows_preserves_entIn {hit2 : EntityNode → Bool}
    (h1 : ∀ (now : Nat) (q : PersonParams) (e : EntityNode),
      hit2 (personOnMatch now q e) = hit2 e)
    (h2 : ∀ (now : Nat) (a : Option String) (e : EntityNode),
      hit2 (orgOnMatch now a e) = hit2 e)
    (h3 : ∀ (now : Nat) (e : EntityNode), hit2 (locOnMatch now e) = hit2 e)
    {ru : Rules} :
    ∀ (rows : List String) (idx : Nat) {s sfin : GraphState},
      process_rows ru rows idx s = .ok sfin → entIn s hit2 → entIn sfin hit2 := by
  intro rows
  induction rows with
  | nil =>
    intro idx s sfin h hin
    obtain rfl := Except.ok.inj h
    exact hin
  | cons d rest ih =>
    intro idx s sfin h hin
    cases hr : process_row ru idx d s with
    | error e =>
      simp only [process_rows, hr] at h
      exact Except.noConfusion h
    | ok s1 =>
      simp only [process_rows, hr] at h
      exact ih (idx + 1) h (process_row_preserves_entIn h1 h2 h3 hr hin)

theorem process_row_establishes_person {ru : Rules} {idx : Nat} {d : String}
    {s s' : GraphState} {n : String} (h : process_row ru idx d s = .ok s')
    (hn : rowPersonName ru d = some n) : entIn s' (personHit n) := by
  cases hd : clean_str (some d) with
  | none =>
    simp only [rowPersonName, hd] at hn
    exact Option.noConfusion hn
  | some dd =>
    cases hex : extract_fields dd ru.field_patterns with
    | error e =>
      simp only [rowPersonName, hd, hex] at hn
      exact Option.noConfusion hn
    | ok flds =>
      simp only [rowPersonName, hd, hex] at hn
      cases ho : resolvedName ((dictGet "organization" flds).getD []) with
      | none =>
        obtain ⟨t, ht, _, hper, _⟩ :=
          process_row_person_only_run ru idx s hd hex hn ho
        rw [ht] at h
        obtain rfl := Except.ok.inj h
        exact hper
      | some m =>
        obtain ⟨t, ht, hper, _⟩ :=
          process_row_both_resolved_run ru idx s hd hex hn ho
        rw [ht] at h
        obtain rfl := Except.ok.inj h
        exact hper

theorem process_rows_unique_presence (ru : Rules) :
    ∀ (rows : List String) (idx : Nat) (s sfin : GraphState),
      process_rows ru rows idx s = .ok sfin →
      s.entities.Pairwise (fun a b => entKey a ≠ entKey b) →
      sfin.entities.Pairwise (fun a b => entKey a ≠ entKey b) ∧
      ∀ d ∈ rows, ∀ n, rowPersonName ru d = some n → entIn sfin (personHit n) := by
  intro rows
  induction rows with
  | nil =>
    intro idx s sfin h hu
    obtain rfl := Except.ok.inj h
    exact ⟨hu, fun d hd => absurd hd (List.not_mem_nil _)⟩
  | cons d rest ih =>
    intro idx s sfin h hu
    cases hr : process_row ru idx d s with
    | error e =>
      simp only [process_rows, hr] at h
      exact Except.noConfusion h
    | ok s1 =>
      simp only [process_rows, hr] at h
      obtain ⟨hu2, hpres⟩ := ih (idx + 1) s1 sfin h
        (process_row_preserves_unique hr hu)
      refine ⟨hu2, ?_⟩
      intro d0 hd0 n hn
      rcases List.mem_cons.1 hd0 with rfl | hmem
      · exact process_rows_preserves_entIn
          (fun now q e => personHit_personOnMatch n now q e)
          (fun now a e => personHit_orgOnMatch n now a e)
          (fun now e => personHit_locOnMatch n now e)
          rest (idx + 1) h (process_row_establishes_person hr hn)
      · exact hpres d0 hmem n hn

theorem personHit_key {x : EntityNode} {n : String} (h : personHit n x = true) :
    entKey x = ("PERSON", n) := by
  simp only [personHit, decide_eq_true_eq] at h
  simp [entKey, h.1, h.2]

theorem countP_person_le_one {l : List EntityNode} {n : String}
    (hu : l.Pairwise (fun a b => entKey a ≠ entKey b)) :
    l.countP (personHit n) ≤ 1 := by
  induction l with
  | nil => simp
  | cons a t ih =>
    obtain ⟨hhead, htail⟩ := List.pairwise_cons.1 hu
    rw [List.countP_cons]
    by_cases ha : personHit n a = true
    · have hzero : t.countP (personHit n) = 0 := by
        rw [List.countP_eq_zero]
        intro x hx hc
        exact hhead x hx ((personHit_key ha).trans (personHit_key hc).symm)
      rw [hzero]
      simp [ha]
    · simp only [Bool.not_eq_true] at ha
      simp only [ha, Bool.false_eq_true, if_false, Nat.add_zero]
      exact ih htail

theorem countP_person_eq_one {l : List EntityNode} {n : String}
    (hu : l.Pairwise (fun a b => entKey a ≠ entKey b))
    (hx : ∃ e ∈ l, personHit n e = true) :
    l.countP (personHit n) = 1 :=
  Nat.le_antisymm (countP_person_le_one hu) (List.countP_pos_iff.2 hx)

/-- Claim C3.  In every store produced by running the pipeline from the
empty store, the pair of entity_type and canonical_text identifies at most
one entity node (the stored entities are pairwise distinct on that key),
and it is the sole merge key: every row whose person group resolves a
name, in particular each of two distinct records naming the same person,
finds exactly one Person node carrying that canonical text. -/
theorem C3_canonical_key_unique :
    ∀ (ru : Rules) (rows : List String) (s : GraphState),
      runPipeline ru rows emptyGraph = .ok s →
      s.entities.Pairwise (fun a b => entKey a ≠ entKey b) ∧
      ∀ d ∈ rows, ∀ n, rowPersonName ru d = some n →
        s.entities.countP (personHit n) = 1 := by
  intro ru rows s h
  obtain ⟨hu, hp⟩ := process_rows_unique_presence ru rows 0 emptyGraph s h
    List.Pairwise.nil
  exact ⟨hu, fun d hd n hn => countP_person_eq_one hu (hp d hd n hn)⟩

/-- Claim C3, witness: two concrete rows naming John collapse to exactly
one Person node in a key-unique store. -/
theorem C3_witness :
    sampleTwoJohns.entities.Pairwise (fun a b => entKey a ≠ entKey b) ∧
    sampleTwoJohns.entities.countP (personHit "John") = 1 :=
  have h := C3_canonical_key_unique
    ⟨"DESC_", [("person", [("name", [patName])])], []⟩
    ["NAME: John; a", "NAME: John"] sampleTwoJohns (by decide)
  ⟨h.1, h.2 "NAME: John; a" (by decide) "John" (by decide)⟩

/-! ## Claim C1: record ids are distinct across rows -/

theorem digitChar_val : ∀ m : Nat, m < 10 → (Nat.digitChar m).toNat - 48 = m := by
  decide

theorem toDigitsCore_val : ∀ (fuel n : Nat) (acc : List Char), n < fuel →
    digitsVal 0 (Nat.toDigitsCore 10 fuel n acc) = digitsVal n acc := by
  intro fuel
  induction fuel with
  | zero => intro n acc h; exact absurd h (Nat.not_lt_zero n)
  | succ f ih =>
    intro n acc h
    show digitsVal 0 (Nat.toDigitsCore 10 (f + 1) n acc) = digitsVal n acc
    rw [Nat.toDigitsCore]
    by_cases hz : n / 10 = 0
    · rw [if_pos hz]
      have hn : n < 10 := by omega
      show digitsVal (10 * 0 + ((Nat.digitChar (n % 10)).toNat - 48)) acc =
        digitsVal n acc
      rw [Nat.mul_zero, Nat.zero_add, Nat.mod_eq_of_lt hn, digitChar_val n hn]
    · rw [if_neg hz]
      have hlt : n / 10 < f := by
        have h1 : 0 < n := by
          rcases Nat.eq_zero_or_pos n with rfl | h1
          · exact absurd (by norm_num) hz
          · exact h1
        have := Nat.div_lt_self h1 (by norm_num : 1 < 10)
        omega
      rw [ih (n / 10) _ hlt]
      show digitsVal (10 * (n / 10) + ((Nat.digitChar (n % 10)).toNat - 48)) acc =
        digitsVal n acc
      rw [digitChar_val (n % 10) (Nat.mod_lt n (by norm_num)), Nat.div_add_mod]

theorem natRepr_val (n : Nat) : digitsVal 0 (Nat.toDigits 10 n) = n :=
  toDigitsCore_val (n + 1) n [] (Nat.lt_succ_self n)

theorem natToString_inj {m n : Nat} (h : toString m = toString n) : m = n := by
  have hd : Nat.toDigits 10 m = Nat.toDigits 10 n := congrArg String.data h
  have hv := natRepr_val m
  rw [hd, natRepr_val n] at hv
  exact hv.symm

/-- Distinct row indices produce distinct record ids. -/
theorem record_id_ne {pre : String} {i j : Nat} (h : i ≠ j) :
    pre ++ toString (i + 1) ≠ pre ++ toString (j + 1) := by
  intro heq
  apply h
  have hdata : pre.data ++ (toString (i + 1)).data =
      pre.data ++ (toString (j + 1)).data := congrArg String.data heq
  have hs : (toString (i + 1)).data = (toString (j + 1)).data :=
    List.append_cancel_left hdata
  have := natToString_inj (String.ext hs)
  omega

/-! ## Claim C1: erasure facts and the strong merge membership lemma -/

@[simp] theorem recordHit_eraseRecTs (rid : String) (r : RecordNode) :
    recordHit rid (eraseRecTs r) = recordHit rid r := rfl

@[simp] theorem personHit_eraseEntTs (n : String) (e : EntityNode) :
    personHit n (eraseEntTs e) = personHit n e := rfl

@[simp] theorem orgHit_eraseEntTs (n : String) (e : EntityNode) :
    orgHit n (eraseEntTs e) = orgHit n e := rfl

@[simp] theorem locHit_eraseEntTs (n : String) (e : EntityNode) :
    locHit n (eraseEntTs e) = locHit n e := rfl

@[simp] theorem describesHit_eraseEdgeTs (rid n : String) (g : Edge) :
    describesHit rid n (eraseEdgeTs g) = describesHit rid n g := rfl

@[simp] theorem assocHit_eraseEdgeTs (p o : String) (g : Edge) :
    assocHit p o (eraseEdgeTs g) = assocHit p o g := rfl

@[simp] theorem locEdgeHit_eraseEdgeTs (p rt l : String) (g : Edge) :
    locEdgeHit p rt l (eraseEdgeTs g) = locEdgeHit p rt l g := rfl

theorem mem_mergeBy_strong {hit : α → Bool} {upd : α → α} {mk : α} {l : List α}
    {y : α} (hy : y ∈ mergeBy hit upd mk l) :
    (y ∈ l ∧ (hit y = false ∨ l.any hit = false)) ∨
    (∃ x ∈ l, hit x = true ∧ y = upd x) ∨
    (y = mk ∧ l.any hit = false) := by
  by_cases ha : l.any hit = true
  · rw [mergeBy_of_any ha] at hy
    obtain ⟨x, hx, hfx⟩ := List.mem_map.1 hy
    by_cases h : hit x = true
    · exact Or.inr (Or.inl ⟨x, hx, h, by simp [h] at hfx; exact hfx.symm⟩)
    · simp only [Bool.not_eq_true] at h
      simp only [h, Bool.false_eq_true, if_false] at hfx
      exact Or.inl ⟨hfx ▸ hx, Or.inl (hfx ▸ h)⟩
  · simp only [Bool.not_eq_true] at ha
    rw [mergeBy_of_not_any ha] at hy
    rcases List.mem_append.1 hy with h | h
    · exact Or.inl ⟨h, Or.inr ha⟩
    · exact Or.inr (Or.inr ⟨List.mem_singleton.1 h, ha⟩)

/-! ## Claim C1: attribute access lemmas -/

theorem coalesce_self (a : Option String) : coalesce a a = a := by
  cases a <;> rfl

theorem personOnCreate_attr (fp) (hfp : fp ∈ personAttrPairs) (now : Nat)
    (n : String) (q : PersonParams) : fp.1 (personOnCreate now n q) = fp.2 q := by
  fin_cases hfp <;> rfl

theorem eraseEntTs_attr (fp) (hfp : fp ∈ personAttrPairs) (e : EntityNode) :
    fp.1 (eraseEntTs e) = fp.1 e := by
  fin_cases hfp <;> rfl

theorem locOnMatch_attr (fp) (hfp : fp ∈ personAttrPairs) (now : Nat)
    (e : EntityNode) : fp.1 (locOnMatch now e) = fp.1 e := by
  fin_cases hfp <;> rfl

theorem orgOnMatch_attr (fp) (hfp : fp ∈ personAttrPairs) (now : Nat)
    (a : Option String) (e : EntityNode) :
    ∃ b, fp.1 (orgOnMatch now a e) = coalesce (fp.1 e) b := by
  fin_cases hfp
  case _ => exact ⟨none, (coalesce_none_right _).symm⟩
  case _ => exact ⟨none, (coalesce_none_right _).symm⟩
  case _ => exact ⟨none, (coalesce_none_right _).symm⟩
  case _ => exact ⟨none, (coalesce_none_right _).symm⟩
  case _ => exact ⟨a, rfl⟩
  all_goals exact ⟨none, (coalesce_none_right _).symm⟩

/-! ## Claim C1: condition algebra -/

theorem personCond_noop {q : PersonParams} {e : EntityNode} (h : personCond q e)
    (now : Nat) : eraseEntTs (personOnMatch now q e) = eraseEntTs e := by
  have h1 : coalesce e.dob q.dob = e.dob :=
    h (EntityNode.dob, PersonParams.dob) (by simp [personAttrPairs])
  have h2 : coalesce e.citizenship q.citizenship = e.citizenship :=
    h (EntityNode.citizenship, PersonParams.citizenship) (by simp [personAttrPairs])
  have h3 : coalesce e.place_of_birth q.place_of_birth = e.place_of_birth :=
    h (EntityNode.place_of_birth, PersonParams.place_of_birth) (by simp [personAttrPairs])
  have h4 : coalesce e.phone_number q.phone_number = e.phone_number :=
    h (EntityNode.phone_number, PersonParams.phone_number) (by simp [personAttrPairs])
  have h5 : coalesce e.address q.address = e.address :=
    h (EntityNode.address, PersonParams.address) (by simp [personAttrPairs])
  have h6 : coalesce e.passport_number q.passport_number = e.passport_number :=
    h (EntityNode.passport_number, PersonParams.passport_number) (by simp [personAttrPairs])
  have h7 : coalesce e.flight_number q.flight_number = e.flight_number :=
    h (EntityNode.flight_number, PersonParams.flight_number) (by simp [personAttrPairs])
  have h8 : coalesce e.departure_location q.departure_location = e.departure_location :=
    h (EntityNode.departure_location, PersonParams.departure_location) (by simp [personAttrPairs])
  have h9 : coalesce e.arrival_location q.arrival_location = e.arrival_location :=
    h (EntityNode.arrival_location, PersonParams.arrival_location) (by simp [personAttrPairs])
  have h10 : coalesce e.arrest_location q.arrest_location = e.arrest_location :=
    h (EntityNode.arrest_location, PersonParams.arrest_location) (by simp [personAttrPairs])
  have h11 : coalesce e.arrival_date q.arrival_date = e.arrival_date :=
    h (EntityNode.arrival_date, PersonParams.arrival_date) (by simp [personAttrPairs])
  have h12 : coalesce e.departure_date q.departure_date = e.departure_date :=
    h (EntityNode.departure_date, PersonParams.departure_date) (by simp [personAttrPairs])
  have h13 : coalesce e.date_generic q.date_generic = e.date_generic :=
    h (EntityNode.date_generic, PersonParams.date_generic) (by simp [personAttrPairs])
  have h14 : coalesce e.money q.money = e.money :=
    h (EntityNode.money, PersonParams.money) (by simp [personAttrPairs])
  have h15 : coalesce e.license_plate q.license_plate = e.license_plate :=
    h (EntityNode.license_plate, PersonParams.license_plate) (by simp [personAttrPairs])
  have h16 : coalesce e.drivers_license q.drivers_license = e.drivers_license :=
    h (EntityNode.drivers_license, PersonParams.drivers_license) (by simp [personAttrPairs])
  simp only [personOnMatch, eraseEntTs]
  rw [h1, h2, h3, h4, h5, h6, h7, h8, h9, h10, h11, h12, h13, h14, h15, h16]

theorem orgCond_noop {a : Option String} {e : EntityNode} (h : orgCond a e)
    (now : Nat) : eraseEntTs (orgOnMatch now a e) = eraseEntTs e := by
  simp only [orgOnMatch, eraseEntTs]
  rw [h]

theorem recCond_noop {d : String} {r : RecordNode} (h : recCond d r)
    (now : Nat) : eraseRecTs (recordOnMatch now d r) = eraseRecTs r := by
  simp only [recordOnMatch, eraseRecTs]
  rw [h]

theorem personCond_of_match (q : PersonParams) (now : Nat) (e : EntityNode) :
    personCond q (personOnMatch now q e) := by
  intro fp hfp
  rw [personOnMatch_attr fp hfp, coalesce_coalesce]

theorem personCond_of_create (q : PersonParams) (now : Nat) (n : String) :
    personCond q (personOnCreate now n q) := by
  intro fp hfp
  rw [personOnCreate_attr fp hfp, coalesce_self]

theorem personCond_pres_person {q : PersonParams} {e : EntityNode}
    (h : personCond q e) (now : Nat) (q' : PersonParams) :
    personCond q (personOnMatch now q' e) := by
  intro fp hfp
  rw [personOnMatch_attr fp hfp]
  exact coalesce_eq_of_eq (h fp hfp) _

theorem personCond_pres_org {q : PersonParams} {e : EntityNode}
    (h : personCond q e) (now : Nat) (a : Option String) :
    personCond q (orgOnMatch now a e) := by
  intro fp hfp
  obtain ⟨b, hb⟩ := orgOnMatch_attr fp hfp now a e
  rw [hb]
  exact coalesce_eq_of_eq (h fp hfp) _

theorem personCond_pres_loc {q : PersonParams} {e : EntityNode}
    (h : personCond q e) (now : Nat) : personCond q (locOnMatch now e) := by
  intro fp hfp
  rw [locOnMatch_attr fp hfp]
  exact h fp hfp

theorem personCond_congr {q : PersonParams} {x y : EntityNode}
    (hxy : eraseEntTs x = eraseEntTs y) (h : personCond q x) : personCond q y := by
  intro fp hfp
  have hx : fp.1 x = fp.1 y := by
    rw [← eraseEntTs_attr fp hfp x, ← eraseEntTs_attr fp hfp y, hxy]
  rw [← hx]
  exact h fp hfp

theorem orgCond_of_match (a : Option String) (now : Nat) (e : EntityNode) :
    orgCond a (orgOnMatch now a e) := by
  show coalesce (coalesce e.address a) a = coalesce e.address a
  exact coalesce_coalesce _ _

theorem orgCond_of_create (a : Option String) (now : Nat) (n : String) :
    orgCond a (orgOnCreate now n a) := by
  show coalesce a a = a
  exact coalesce_self a

theorem orgCond_pres_person {a : Option String} {e : EntityNode}
    (h : orgCond a e) (now : Nat) (q' : PersonParams) :
    orgCond a (personOnMatch now q' e) := by
  show coalesce (coalesce e.address q'.address) a = coalesce e.address q'.address
  exact coalesce_eq_of_eq h _

theorem orgCond_pres_org {a : Option String} {e : EntityNode}
    (h : orgCond a e) (now : Nat) (a' : Option String) :
    orgCond a (orgOnMatch now a' e) := by
  show coalesce (coalesce e.address a') a = coalesce e.address a'
  exact coalesce_eq_of_eq h _

theorem orgCond_pres_loc {a : Option String} {e : EntityNode}
    (h : orgCond a e) (now : Nat) : orgCond a (locOnMatch now e) := h

theorem orgCond_congr {a : Option String} {x y : EntityNode}
    (hxy : eraseEntTs x = eraseEntTs y) (h : orgCond a x) : orgCond a y := by
  have hx0 : (eraseEntTs x).address = (eraseEntTs y).address :=
    congrArg EntityNode.address hxy
  have hx : x.address = y.address := hx0
  show coalesce y.address a = y.address
  rw [← hx]
  exact h

theorem recCond_congr {d : String} {x y : RecordNode}
    (hxy : eraseRecTs x = eraseRecTs y) (h : recCond d x) : recCond d y := by
  have hx0 : (eraseRecTs x).description = (eraseRecTs y).description :=
    congrArg RecordNode.description hxy
  have hx : x.description = y.description := hx0
  show y.description = d
  rw [← hx]
  exact h

/-! ## Claim C1: transfer along erasure equality -/

theorem exists_of_map_eq {f : α → α} {hit : α → Bool} (hf : ∀ x, hit (f x) = hit x)
    {l l' : List α} (h : l.map f = l'.map f)
    (he : ∃ x ∈ l, hit x = true) : ∃ x ∈ l', hit x = true := by
  obtain ⟨x, hx, hhit⟩ := he
  have hmem : f x ∈ l'.map f := h ▸ List.mem_map_of_mem f hx
  obtain ⟨y, hy, hfy⟩ := List.mem_map.1 hmem
  refine ⟨y, hy, ?_⟩
  rw [← hf y, hfy, hf x]
  exact hhit

theorem forall_of_map_eq {f : α → α} {hit : α → Bool} {C : α → Prop}
    (hf : ∀ x, hit (f x) = hit x) (hC : ∀ x y, f x = f y → C x → C y)
    {l l' : List α} (h : l.map f = l'.map f)
    (hall : ∀ x ∈ l, hit x = true → C x) : ∀ y ∈ l', hit y = true → C y := by
  intro y hy hhit
  have hmem : f y ∈ l.map f := h ▸ List.mem_map_of_mem f hy
  obtain ⟨x, hx, hfx⟩ := List.mem_map.1 hmem
  have hhx : hit x = true := by rw [← hf x, hfx, hf y]; exact hhit
  exact hC x y hfx (hall x hx hhx)

theorem erase_records_eq {s t : GraphState} (h : eraseTs s = eraseTs t) :
    s.records.map eraseRecTs = t.records.map eraseRecTs :=
  congrArg GraphState.records h

theorem erase_entities_eq {s t : GraphState} (h : eraseTs s = eraseTs t) :
    s.entities.map eraseEntTs = t.entities.map eraseEntTs :=
  congrArg GraphState.entities h

theorem erase_edges_eq {s t : GraphState} (h : eraseTs s = eraseTs t) :
    s.edges.map eraseEdgeTs = t.edges.map eraseEdgeTs :=
  congrArg GraphState.edges h

theorem eraseTs_eq_of_components {s t : GraphState}
    (h1 : s.records.map eraseRecTs = t.records.map eraseRecTs)
    (h2 : s.entities.map eraseEntTs = t.entities.map eraseEntTs)
    (h3 : s.edges.map eraseEdgeTs = t.edges.map eraseEdgeTs) :
    eraseTs s = eraseTs t := by
  simp only [eraseTs]
  rw [h1, h2, h3]

theorem RecordAbsorbed_transfer {rid d : String} {l l' : List RecordNode}
    (h : l.map eraseRecTs = l'.map eraseRecTs)
    (ha : RecordAbsorbed rid d l) : RecordAbsorbed rid d l' :=
  ⟨exists_of_map_eq (fun x => recordHit_eraseRecTs rid x) h ha.1,
   forall_of_map_eq (fun x => recordHit_eraseRecTs rid x)
     (fun _ _ hxy hc => recCond_congr hxy hc) h ha.2⟩

theorem PersonAbsorbed_transfer {pf : List (String × String)} {n : String}
    {l l' : List EntityNode} (h : l.map eraseEntTs = l'.map eraseEntTs)
    (ha : PersonAbsorbed pf n l) : PersonAbsorbed pf n l' :=
  ⟨exists_of_map_eq (fun x => personHit_eraseEntTs n x) h ha.1,
   forall_of_map_eq (fun x => personHit_eraseEntTs n x)
     (fun _ _ hxy hc => personCond_congr hxy hc) h ha.2⟩

theorem OrgAbsorbed_transfer {og : List (String × String)} {m : String}
    {l l' : List EntityNode} (h : l.map eraseEntTs = l'.map eraseEntTs)
    (ha : OrgAbsorbed og m l) : OrgAbsorbed og m l' :=
  ⟨exists_of_map_eq (fun x => orgHit_eraseEntTs m x) h ha.1,
   forall_of_map_eq (fun x => orgHit_eraseEntTs m x)
     (fun _ _ hxy hc => orgCond_congr hxy hc) h ha.2⟩

theorem LocAbsorbed_transfer {relMap : List (String × String)} {n : String}
    {pf : List (String × String)} {s t : GraphState} (h : eraseTs s = eraseTs t)
    (ha : LocAbsorbed relMap n pf s) : LocAbsorbed relMap n pf t := by
  intro fk rt hm L hL
  obtain ⟨h1, h2⟩ := ha fk rt hm L hL
  constructor
  · exact exists_of_map_eq (fun x => locHit_eraseEntTs L x) (erase_entities_eq h) h1
  · exact exists_of_map_eq (fun x => locEdgeHit_eraseEdgeTs n rt L x)
      (erase_edges_eq h) h2

/-! ## Claim C1: absorbed operations refresh only timestamps -/

theorem upsert_record_noop {s : GraphState} {rid : String} {i : Nat} {d : String}
    (h : RecordAbsorbed rid d s.records) :
    eraseTs (upsert_record s rid i d) = eraseTs s :=
  eraseTs_eq_of_components
    (mergeBy_map_noop (List.any_eq_true.2 h.1)
      (fun x hx hhit => recCond_noop (h.2 x hx hhit) s.clock))
    rfl rfl

theorem merge_person_noop {pf : List (String × String)} {n : String}
    {l : List EntityNode} (h : PersonAbsorbed pf n l) (now : Nat) :
    (mergeBy (personHit n) (personOnMatch now (personParams pf))
      (personOnCreate now n (personParams pf)) l).map eraseEntTs =
      l.map eraseEntTs :=
  mergeBy_map_noop (List.any_eq_true.2 h.1)
    (fun x hx hhit => personCond_noop (h.2 x hx hhit) now)

theorem merge_org_noop {og : List (String × String)} {m : String}
    {l : List EntityNode} (h : OrgAbsorbed og m l) (now : Nat) :
    (mergeBy (orgHit m) (orgOnMatch now (clean_str (dictGet "address" og)))
      (orgOnCreate now m (clean_str (dictGet "address" og))) l).map eraseEntTs =
      l.map eraseEntTs :=
  mergeBy_map_noop (List.any_eq_true.2 h.1)
    (fun x hx hhit => orgCond_noop (h.2 x hx hhit) now)

theorem merge_record_noop {rid d : String} {l : List RecordNode}
    (h : RecordAbsorbed rid d l) (now : Nat) (i : Nat) :
    (mergeBy (recordHit rid) (recordOnMatch now d)
      (recordOnCreate now rid i d) l).map eraseRecTs = l.map eraseRecTs :=
  mergeBy_map_noop (List.any_eq_true.2 h.1)
    (fun x hx hhit => recCond_noop (h.2 x hx hhit) now)

theorem LocAbsorbed_transfer2 {relMap : List (String × String)} {n : String}
    {pf : List (String × String)} {s t : GraphState}
    (hent : s.entities.map eraseEntTs = t.entities.map eraseEntTs)
    (hedg : s.edges.map eraseEdgeTs = t.edges.map eraseEdgeTs)
    (ha : LocAbsorbed relMap n pf s) : LocAbsorbed relMap n pf t := by
  intro fk rt hm L hL
  obtain ⟨h1, h2⟩ := ha fk rt hm L hL
  exact ⟨exists_of_map_eq (fun x => locHit_eraseEntTs L x) hent h1,
    exists_of_map_eq (fun x => locEdgeHit_eraseEdgeTs n rt L x) hedg h2⟩

theorem connect_record_noop {s : GraphState} {rid n : String}
    (h : ∃ g ∈ s.edges, describesHit rid n g = true) :
    eraseTs (connect_record_to_person s rid n) = eraseTs s := by
  unfold connect_record_to_person
  split
  · exact eraseTs_eq_of_components rfl rfl
      (mergeBy_map_noop (List.any_eq_true.2 h) (fun x _ _ => rfl))
  · exact eraseTs_eq_of_components rfl rfl rfl

theorem connect_org_noop {s : GraphState} {n m : String}
    (h : ∃ g ∈ s.edges, assocHit n m g = true) :
    eraseTs (connect_person_to_org s n m) = eraseTs s := by
  unfold connect_person_to_org
  split
  · exact eraseTs_eq_of_components rfl rfl
      (mergeBy_map_noop (List.any_eq_true.2 h) (fun x _ _ => rfl))
  · exact eraseTs_eq_of_components rfl rfl rfl

theorem upsert_location_noop {s : GraphState} {L : String}
    (h : ∃ e ∈ s.entities, locHit L e = true) :
    eraseTs (upsert_location s L) = eraseTs s := by
  unfold upsert_location
  split
  · rfl
  · exact eraseTs_eq_of_components rfl
      (mergeBy_map_noop (List.any_eq_true.2 h) (fun x _ _ => rfl)) rfl

theorem connect_location_edge_noop {s : GraphState} {pn rt L : String}
    (h : ∃ g ∈ s.edges, locEdgeHit pn rt L g = true) :
    eraseTs (connect_location_edge s pn rt L) = eraseTs s := by
  unfold connect_location_edge
  split
  · exact eraseTs_eq_of_components rfl rfl
      (mergeBy_map_noop (List.any_eq_true.2 h) (fun x _ _ => rfl))
  · exact eraseTs_eq_of_components rfl rfl rfl

theorem locations_noop {relMap : List (String × String)} {n : String}
    {pf : List (String × String)} :
    ∀ {s : GraphState}, LocAbsorbed relMap n pf s →
      eraseTs (connect_person_to_locations s relMap n pf) = eraseTs s := by
  induction relMap with
  | nil => intro s _; rfl
  | cons a rest ih =>
    intro s h
    unfold connect_person_to_locations
    cases hc : clean_str (dictGet a.1 pf) with
    | none =>
      exact ih (fun fk rt hm L hL => h fk rt (List.mem_cons_of_mem a hm) L hL)
    | some L =>
      obtain ⟨hent, hedge⟩ := h a.1 a.2 (List.mem_cons_self a rest) L hc
      have e1 : eraseTs (upsert_location s L) = eraseTs s :=
        upsert_location_noop hent
      have hedge2 : ∃ g ∈ (upsert_location s L).edges, locEdgeHit n a.2 L g = true := by
        rw [upsert_location_edges]
        exact hedge
      have e2 : eraseTs (connect_location_edge (upsert_location s L) n a.2 L) =
          eraseTs (upsert_location s L) := connect_location_edge_noop hedge2
      have e3 := e2.trans e1
      have hrest : LocAbsorbed rest n pf
          (connect_location_edge (upsert_location s L) n a.2 L) :=
        LocAbsorbed_transfer e3.symm
          (fun fk rt hm L' hL' => h fk rt (List.mem_cons_of_mem a hm) L' hL')
      rw [ih hrest]
      exact e3

/-- The connect tail of a person-resolved row against a store that
already holds its DESCRIBES edge and all its location facts refreshes
only timestamps. -/
theorem tail_person_noop (S : GraphState) (rid n : String)
    (relMap : List (String × String)) (pf : List (String × String))
    (hdesc : ∃ g ∈ S.edges, describesHit rid n g = true)
    (hloc : LocAbsorbed relMap n pf S) :
    eraseTs (connect_person_to_locations (connect_record_to_person S rid n)
      relMap n pf) = eraseTs S := by
  have e4 : eraseTs (connect_record_to_person S rid n) = eraseTs S :=
    connect_record_noop hdesc
  have hloc4 := LocAbsorbed_transfer e4.symm hloc
  exact (locations_noop hloc4).trans e4

/-- The connect tail of a both-resolved row against a store that already
holds its edges refreshes only timestamps. -/
theorem tail_both_noop (S : GraphState) (rid n m : String)
    (relMap : List (String × String)) (pf : List (String × String))
    (hdesc : ∃ g ∈ S.edges, describesHit rid n g = true)
    (hloc : LocAbsorbed relMap n pf S)
    (hassoc : ∃ g ∈ S.edges, assocHit n m g = true) :
    eraseTs (connect_person_to_org
      (connect_person_to_locations (connect_record_to_person S rid n) relMap n pf)
      n m) = eraseTs S := by
  have e5 : eraseTs (connect_person_to_locations (connect_record_to_person S rid n)
      relMap n pf) = eraseTs S := tail_person_noop S rid n relMap pf hdesc hloc
  have hassoc5 : ∃ g ∈ (connect_person_to_locations
      (connect_record_to_person S rid n) relMap n pf).edges,
      assocHit n m g = true :=
    exists_of_map_eq (fun x => assocHit_eraseEdgeTs n m x)
      (erase_edges_eq e5.symm) hassoc
  exact (connect_org_noop hassoc5).trans e5

/-- Re-processing an absorbed row succeeds and changes the store only up
to erasure: every write is an ON MATCH refresh of updated_at or
last_seen. -/
theorem process_row_absorbed_noop {ru : Rules} {idx : Nat} {desc : String}
    {s : GraphState} (ha : RowAbsorbed ru idx desc s) :
    ∃ s', process_row ru idx desc s = .ok s' ∧ eraseTs s' = eraseTs s := by
  cases hd : clean_str (some desc) with
  | none =>
    simp only [process_row, hd]
    exact ⟨s, rfl, rfl⟩
  | some d =>
    simp only [RowAbsorbed, hd] at ha
    obtain ⟨flds, hex, hrec, hperson, horg⟩ := ha
    simp only [process_row, hd, hex]
    cases hp : resolvedName ((dictGet "person" flds).getD []) with
    | none =>
      rw [upsert_person_unresolved hp]
      refine ⟨_, rfl, ?_⟩
      cases ro : resolvedName ((dictGet "organization" flds).getD []) with
      | none =>
        rw [upsert_organization_unresolved ro]
        exact eraseTs_eq_of_components (merge_record_noop hrec _ _) rfl rfl
      | some m =>
        rw [upsert_organization_resolved ro]
        exact eraseTs_eq_of_components (merge_record_noop hrec _ _)
          (merge_org_noop (horg m ro) _) rfl
    | some n =>
      rw [upsert_person_resolved hp]
      obtain ⟨hPA, hdesc, hloc, hassoc⟩ := hperson n hp
      cases ro : resolvedName ((dictGet "organization" flds).getD []) with
      | none =>
        rw [upsert_organization_unresolved ro]
        refine ⟨_, rfl, ?_⟩
        refine Eq.trans (tail_person_noop _ _ _ _ _ hdesc ?_) ?_
        · exact LocAbsorbed_transfer2 (merge_person_noop hPA _).symm rfl hloc
        · exact eraseTs_eq_of_components (merge_record_noop hrec _ _)
            (merge_person_noop hPA _) rfl
      | some m =>
        rw [upsert_organization_resolved ro]
        refine ⟨_, rfl, ?_⟩
        refine Eq.trans (tail_both_noop _ _ _ _ _ _ hdesc ?_ (hassoc m ro)) ?_
        · exact LocAbsorbed_transfer2
            ((merge_org_noop (OrgAbsorbed_transfer
              (merge_person_noop hPA _).symm (horg m ro)) _).trans
              (merge_person_noop hPA _)).symm rfl hloc
        · exact eraseTs_eq_of_components (merge_record_noop hrec _ _)
            ((merge_org_noop (OrgAbsorbed_transfer
              (merge_person_noop hPA _).symm (horg m ro)) _).trans
              (merge_person_noop hPA _)) rfl

/-! ## Claim C1: a processed row is absorbed, absorption is preserved -/

/-- A merge establishes presence of its pattern and any condition enforced
by both of its clauses. -/
theorem mergeBy_absorb {hit : α → Bool} {upd : α → α} {mk : α} {C : α → Prop}
    (l : List α)
    (hinv : ∀ x, hit (upd x) = hit x) (hmk : hit mk = true)
    (hCu : ∀ x, C (upd x)) (hCm : C mk) :
    (∃ y ∈ mergeBy hit upd mk l, hit y = true) ∧
      ∀ y ∈ mergeBy hit upd mk l, hit y = true → C y := by
  refine ⟨exists_hit_mergeBy hmk (fun x h => (hinv x).trans h), ?_⟩
  by_cases ha : l.any hit = true
  · rw [mergeBy_of_any ha]
    intro y hy h2
    obtain ⟨x, hx, hfx⟩ := List.mem_map.1 hy
    by_cases h : hit x = true
    · rw [if_pos h] at hfx
      exact hfx ▸ hCu x
    · simp only [Bool.not_eq_true] at h
      rw [if_neg (by simp [h])] at hfx
      rw [← hfx, h] at h2
      exact absurd h2 (by simp)
  · simp only [Bool.not_eq_true] at ha
    rw [mergeBy_of_not_any ha]
    intro y hy h2
    rcases List.mem_append.1 hy with h | h
    · have hc : l.any hit = true := List.any_eq_true.2 ⟨y, h, h2⟩
      rw [ha] at hc
      exact Bool.noConfusion hc
    · rw [List.mem_singleton.1 h]
      exact hCm

/-- Presence of a key and domination of its matches survive a merge on a
possibly different key, when the ON MATCH clause is invisible to the key,
preserves domination on elements matching both keys, and the created
element can match the key only if the two keys agree everywhere. -/
theorem mergeBy_pres {hitA hitB : α → Bool} {upd : α → α} {mk : α} {C : α → Prop}
    {l : List α}
    (hinv : ∀ x, hitA (upd x) = hitA x)
    (hpres : ∀ x, hitA x = true → hitB x = true → C x → C (upd x))
    (hagree : hitA mk = true → ∀ x, hitB x = hitA x)
    (h : (∃ y ∈ l, hitA y = true) ∧ ∀ y ∈ l, hitA y = true → C y) :
    (∃ y ∈ mergeBy hitB upd mk l, hitA y = true) ∧
      ∀ y ∈ mergeBy hitB upd mk l, hitA y = true → C y := by
  obtain ⟨hex, hall⟩ := h
  refine ⟨exists_mergeBy_of_exists hex (fun x hx => (hinv x).trans hx), ?_⟩
  by_cases hb : l.any hitB = true
  · rw [mergeBy_of_any hb]
    intro y hy h2
    obtain ⟨x, hx, hfx⟩ := List.mem_map.1 hy
    by_cases hbx : hitB x = true
    · rw [if_pos hbx] at hfx
      subst hfx
      have hax : hitA x = true := (hinv x).symm.trans h2
      exact hpres x hax hbx (hall x hx hax)
    · simp only [Bool.not_eq_true] at hbx
      rw [if_neg (by simp [hbx])] at hfx
      exact hall y (hfx ▸ hx) h2
  · simp only [Bool.not_eq_true] at hb
    rw [mergeBy_of_not_any hb]
    intro y hy h2
    rcases List.mem_append.1 hy with hm | hm
    · exact hall y hm h2
    · rw [List.mem_singleton.1 hm] at h2
      obtain ⟨x0, hx0, hA0⟩ := hex
      have hany : l.any hitB = true :=
        List.any_eq_true.2 ⟨x0, hx0, (hagree h2 x0).trans hA0⟩
      rw [hb] at hany
      exact Bool.noConfusion hany

theorem personHit_create_name {n n2 : String} {now : Nat} {q : PersonParams}
    (h : personHit n (personOnCreate now n2 q) = true) : n2 = n := by
  simpa [personHit, personOnCreate] using h

theorem orgHit_create_name {m m2 : String} {now : Nat} {a : Option String}
    (h : orgHit m (orgOnCreate now m2 a) = true) : m2 = m := by
  simpa [orgHit, orgOnCreate] using h

theorem locHit_create_name {L L2 : String} {now : Nat}
    (h : locHit L (locOnCreate now L2) = true) : L2 = L := by
  simpa [locHit, locOnCreate] using h

theorem recordHit_create_name {rid rid2 : String} {now : Nat} {i : Nat} {d : String}
    (h : recordHit rid (recordOnCreate now rid2 i d) = true) : rid2 = rid := by
  simpa [recordHit, recordOnCreate] using h

/-- The locations loop preserves presence of an entity key and domination
of its matches, for a key invisible to the location ON MATCH clause. -/
theorem locations_pres (hitA : EntityNode → Bool) (C : EntityNode → Prop)
    (hinv : ∀ (now : Nat) e, hitA (locOnMatch now e) = hitA e)
    (hpres : ∀ (now : Nat) e, C e → C (locOnMatch now e))
    (hagree : ∀ (now : Nat) (L : String), hitA (locOnCreate now L) = true →
      ∀ e, locHit L e = hitA e)
    (relMap : List (String × String)) (pn : String) (pf : List (String × String)) :
    ∀ s : GraphState,
      ((∃ e ∈ s.entities, hitA e = true) ∧ ∀ e ∈ s.entities, hitA e = true → C e) →
      ((∃ e ∈ (connect_person_to_locations s relMap pn pf).entities, hitA e = true) ∧
        ∀ e ∈ (connect_person_to_locations s relMap pn pf).entities,
          hitA e = true → C e) := by
  induction relMap with
  | nil => intro s h; exact h
  | cons a rest ih =>
    intro s h
    unfold connect_person_to_locations
    cases hc : clean_str (dictGet a.1 pf) with
    | none => exact ih s h
    | some L =>
      refine ih _ ?_
      rw [connect_location_edge_entities]
      unfold upsert_location
      by_cases hL : L = ""
      · rw [if_pos hL]
        exact h
      · rw [if_neg hL]
        exact mergeBy_pres (fun e => hinv s.clock e)
          (fun e _ _ he => hpres s.clock e he)
          (fun hmk e => hagree s.clock L hmk e) h

/-- The record merge of `upsert_record` establishes record absorption:
the node exists and stores the description just written. -/
theorem RecordAbsorbed_upsert {rid d : String} {i : Nat} {s : GraphState} :
    RecordAbsorbed rid d (upsert_record s rid i d).records :=
  mergeBy_absorb s.records (fun x => recordHit_recordOnMatch rid s.clock d x)
    (recordHit_recordOnCreate rid s.clock i d) (fun _ => rfl) rfl

/-- The person merge establishes person absorption: the node exists and
dominates the incoming parameters. -/
theorem PersonAbsorbed_upsert {pf : List (String × String)} {n : String}
    {l : List EntityNode} {now : Nat} :
    PersonAbsorbed pf n (mergeBy (personHit n)
      (personOnMatch now (personParams pf))
      (personOnCreate now n (personParams pf)) l) :=
  mergeBy_absorb l (fun x => personHit_personOnMatch n now (personParams pf) x)
    (personHit_personOnCreate n now (personParams pf))
    (fun x => personCond_of_match (personParams pf) now x)
    (personCond_of_create (personParams pf) now n)

/-- The organization merge establishes organization absorption. -/
theorem OrgAbsorbed_upsert {og : List (String × String)} {m : String}
    {l : List EntityNode} {now : Nat} :
    OrgAbsorbed og m (mergeBy (orgHit m)
      (orgOnMatch now (clean_str (dictGet "address" og)))
      (orgOnCreate now m (clean_str (dictGet "address" og))) l) :=
  mergeBy_absorb l (fun x => orgHit_orgOnMatch m now (clean_str (dictGet "address" og)) x)
    (orgHit_orgOnCreate m now (clean_str (dictGet "address" og)))
    (fun x => orgCond_of_match (clean_str (dictGet "address" og)) now x)
    (orgCond_of_create (clean_str (dictGet "address" og)) now m)

/-- Person absorption survives an organization merge. -/
theorem PersonAbsorbed_org_merge {pf : List (String × String)} {n : String}
    {l : List EntityNode} {m : String} {now : Nat} {a : Option String}
    (h : PersonAbsorbed pf n l) :
    PersonAbsorbed pf n (mergeBy (orgHit m) (orgOnMatch now a)
      (orgOnCreate now m a) l) :=
  mergeBy_pres (fun x => personHit_orgOnMatch n now a x)
    (fun x _ _ hc => personCond_pres_org hc now a)
    (fun h2 => absurd h2 (by simp)) h

/-- Person absorption survives the connect tail of a row. -/
theorem PersonAbsorbed_connect_tail {pf0 : List (String × String)} {n0 : String}
    {S : GraphState} (rid pn : String) (relMap : List (String × String))
    (pf : List (String × String)) (h : PersonAbsorbed pf0 n0 S.entities) :
    PersonAbsorbed pf0 n0 (connect_person_to_locations
      (connect_record_to_person S rid pn) relMap pn pf).entities :=
  locations_pres (personHit n0) (personCond (personParams pf0))
    (fun now e => personHit_locOnMatch n0 now e)
    (fun now e he => personCond_pres_loc he now)
    (fun now L hmk => absurd hmk (by simp))
    relMap pn pf (connect_record_to_person S rid pn)
    (by rw [connect_record_to_person_entities]; exact h)

/-- Organization absorption survives the connect tail of a row. -/
theorem OrgAbsorbed_connect_tail {og : List (String × String)} {m0 : String}
    {S : GraphState} (rid pn : String) (relMap : List (String × String))
    (pf : List (String × String)) (h : OrgAbsorbed og m0 S.entities) :
    OrgAbsorbed og m0 (connect_person_to_locations
      (connect_record_to_person S rid pn) relMap pn pf).entities :=
  locations_pres (orgHit m0) (orgCond (clean_str (dictGet "address" og)))
    (fun now e => orgHit_locOnMatch m0 now e)
    (fun now e he => orgCond_pres_loc he now)
    (fun now L hmk => absurd hmk (by simp))
    relMap pn pf (connect_record_to_person S rid pn)
    (by rw [connect_record_to_person_entities]; exact h)

/-- Location absorption survives the organization connect. -/
theorem LocAbsorbed_connect_org {relMap : List (String × String)} {n0 : String}
    {pf : List (String × String)} {s : GraphState} (n m : String)
    (h : LocAbsorbed relMap n0 pf s) :
    LocAbsorbed relMap n0 pf (connect_person_to_org s n m) := by
  intro fk rt hm L hL
  obtain ⟨h1, h2⟩ := h fk rt hm L hL
  unfold connect_person_to_org
  split
  · exact ⟨h1, exists_mergeBy_of_exists h2
      (fun g hg => by rw [locEdgeHit_edgeOnMatch]; exact hg)⟩
  · exact ⟨h1, h2⟩

/-- Processing a row leaves the row absorbed in the resulting store: its
record node stores the description, its resolved entities dominate their
extracted attributes, and all of its edges exist. -/
theorem process_row_absorbs {ru : Rules} {idx : Nat} {desc : String}
    {s s' : GraphState} (h : process_row ru idx desc s = .ok s') :
    RowAbsorbed ru idx desc s' := by
  unfold RowAbsorbed
  cases hd : clean_str (some desc) with
  | none => trivial
  | some d =>
    cases hex : extract_fields d ru.field_patterns with
    | error e =>
      simp only [process_row, hd, hex] at h
      exact Except.noConfusion h
    | ok flds =>
      simp only [process_row, hd, hex] at h
      refine ⟨flds, hex, ?_⟩
      cases hp : resolvedName ((dictGet "person" flds).getD []) with
      | none =>
        rw [upsert_person_unresolved hp] at h
        cases ro : resolvedName ((dictGet "organization" flds).getD []) with
        | none =>
          rw [upsert_organization_unresolved ro] at h
          obtain rfl := Except.ok.inj h
          refine ⟨?_, ?_, ?_⟩
          · exact RecordAbsorbed_upsert
          · intro n hn
            rw [hp] at hn
            exact Option.noConfusion hn
          · intro m hm
            rw [ro] at hm
            exact Option.noConfusion hm
        | some m =>
          rw [upsert_organization_resolved ro] at h
          obtain rfl := Except.ok.inj h
          refine ⟨?_, ?_, ?_⟩
          · exact RecordAbsorbed_upsert
          · intro n hn
            rw [hp] at hn
            exact Option.noConfusion hn
          · intro m2 hm
            rw [ro] at hm
            obtain rfl := Option.some.inj hm
            exact OrgAbsorbed_upsert
      | some n =>
        rw [upsert_person_resolved hp] at h
        cases ro : resolvedName ((dictGet "organization" flds).getD []) with
        | none =>
          rw [upsert_organization_unresolved ro] at h
          obtain rfl := Except.ok.inj h
          refine ⟨?_, ?_, ?_⟩
          · rw [connect_person_to_locations_records, connect_record_to_person_records]
            exact RecordAbsorbed_upsert
          · intro n2 hn
            rw [hp] at hn
            obtain rfl := Option.some.inj hn
            refine ⟨?_, ?_, ?_, ?_⟩
            · refine PersonAbsorbed_connect_tail _ _ _ _ ?_
              exact PersonAbsorbed_upsert
            · refine And.left (And.right (connects_facts _
                (ru.record_id_prefix ++ toString (idx + 1)) n
                ru.location_relationships ((dictGet "person" flds).getD []) ?_ ?_))
              · exact List.any_eq_true.2 (And.left RecordAbsorbed_upsert)
              · exact And.left PersonAbsorbed_upsert
            · intro fk rt hm L hL
              refine locations_establish ru.location_relationships n
                ((dictGet "person" flds).getD []) _ ?_ fk rt hm L hL
              refine (entIn_congr (connect_record_to_person_entities _ _ _) _).2 ?_
              exact And.left PersonAbsorbed_upsert
            · intro m hm
              rw [ro] at hm
              exact Option.noConfusion hm
          · intro m hm
            rw [ro] at hm
            exact Option.noConfusion hm
        | some m =>
          rw [upsert_organization_resolved ro] at h
          obtain rfl := Except.ok.inj h
          refine ⟨?_, ?_, ?_⟩
          · rw [connect_person_to_org_records, connect_person_to_locations_records,
              connect_record_to_person_records]
            exact RecordAbsorbed_upsert
          · intro n2 hn
            rw [hp] at hn
            obtain rfl := Option.some.inj hn
            refine ⟨?_, ?_, ?_, ?_⟩
            · rw [connect_person_to_org_entities]
              refine PersonAbsorbed_connect_tail _ _ _ _ ?_
              exact PersonAbsorbed_org_merge PersonAbsorbed_upsert
            · refine And.left (And.right (And.right (tail_both_facts _
                (ru.record_id_prefix ++ toString (idx + 1)) n m
                ru.location_relationships ((dictGet "person" flds).getD [])
                ?_ ?_ ?_)))
              · exact List.any_eq_true.2 (And.left RecordAbsorbed_upsert)
              · exact And.left (PersonAbsorbed_org_merge PersonAbsorbed_upsert)
              · exact And.left OrgAbsorbed_upsert
            · refine LocAbsorbed_connect_org n m ?_
              intro fk rt hm2 L hL
              refine locations_establish ru.location_relationships n
                ((dictGet "person" flds).getD []) _ ?_ fk rt hm2 L hL
              refine (entIn_congr (connect_record_to_person_entities _ _ _) _).2 ?_
              exact And.left (PersonAbsorbed_org_merge PersonAbsorbed_upsert)
            · intro m2 hm2
              rw [ro] at hm2
              obtain rfl := Option.some.inj hm2
              refine (And.right (And.right (And.right (tail_both_facts _
                (ru.record_id_prefix ++ toString (idx + 1)) n m
                ru.location_relationships ((dictGet "person" flds).getD [])
                ?_ ?_ ?_))) n m).2 (Or.inr ⟨rfl, rfl⟩)
              · exact List.any_eq_true.2 (And.left RecordAbsorbed_upsert)
              · exact And.left (PersonAbsorbed_org_merge PersonAbsorbed_upsert)
              · exact And.left OrgAbsorbed_upsert
          · intro m2 hm2
            rw [ro] at hm2
            obtain rfl := Option.some.inj hm2
            rw [connect_person_to_org_entities]
            refine OrgAbsorbed_connect_tail _ _ _ _ ?_
            exact OrgAbsorbed_upsert

theorem recordHit_key {x : RecordNode} {rid : String}
    (h : recordHit rid x = true) : x.record_id = rid := by
  simpa [recordHit] using h

theorem edgeIn_connect_record {hit : Edge → Bool} {s : GraphState} (rid n : String)
    (hc : edgeIn s hit) : edgeIn (connect_record_to_person s rid n) hit := by
  unfold connect_record_to_person
  split
  · exact exists_mergeBy_of_exists hc (fun g hg => hg)
  · exact hc

theorem edgeIn_connect_org {hit : Edge → Bool}
    (hinv : ∀ (now : Nat) g, hit (edgeOnMatch now g) = hit g)
    {s : GraphState} (n m : String) (hc : edgeIn s hit) :
    edgeIn (connect_person_to_org s n m) hit := by
  unfold connect_person_to_org
  split
  · exact exists_mergeBy_of_exists hc (fun g hg => (hinv s.clock g).trans hg)
  · exact hc

/-- Every entity-key presence and domination condition that is invisible
to all three entity ON MATCH clauses survives processing of any row. -/
theorem entAbs_process_row (hitA : EntityNode → Bool) (C : EntityNode → Prop)
    (hinvP : ∀ (now : Nat) (q : PersonParams) e, hitA (personOnMatch now q e) = hitA e)
    (hinvO : ∀ (now : Nat) (a : Option String) e, hitA (orgOnMatch now a e) = hitA e)
    (hinvL : ∀ (now : Nat) e, hitA (locOnMatch now e) = hitA e)
    (hpresP : ∀ (now : Nat) (q : PersonParams) e, C e → C (personOnMatch now q e))
    (hpresO : ∀ (now : Nat) (a : Option String) e, C e → C (orgOnMatch now a e))
    (hpresL : ∀ (now : Nat) e, C e → C (locOnMatch now e))
    (hmkP : ∀ (now : Nat) (n : String) (q : PersonParams),
      hitA (personOnCreate now n q) = true → ∀ e, personHit n e = hitA e)
    (hmkO : ∀ (now : Nat) (m : String) (a : Option String),
      hitA (orgOnCreate now m a) = true → ∀ e, orgHit m e = hitA e)
    (hmkL : ∀ (now : Nat) (L : String), hitA (locOnCreate now L) = true →
      ∀ e, locHit L e = hitA e)
    {ru : Rules} {idx : Nat} {desc : String} {s s' : GraphState}
    (h : process_row ru idx desc s = .ok s')
    (hc : (∃ e ∈ s.entities, hitA e = true) ∧
      ∀ e ∈ s.entities, hitA e = true → C e) :
    (∃ e ∈ s'.entities, hitA e = true) ∧
      ∀ e ∈ s'.entities, hitA e = true → C e := by
  cases hd : clean_str (some desc) with
  | none =>
    simp only [process_row, hd] at h
    obtain rfl := Except.ok.inj h
    exact hc
  | some d =>
    cases hex : extract_fields d ru.field_patterns with
    | error e =>
      simp only [process_row, hd, hex] at h
      exact Except.noConfusion h
    | ok flds =>
      simp only [process_row, hd, hex] at h
      cases hp : resolvedName ((dictGet "person" flds).getD []) with
      | none =>
        rw [upsert_person_unresolved hp] at h
        cases ro : resolvedName ((dictGet "organization" flds).getD []) with
        | none =>
          rw [upsert_organization_unresolved ro] at h
          obtain rfl := Except.ok.inj h
          exact hc
        | some m =>
          rw [upsert_organization_resolved ro] at h
          obtain rfl := Except.ok.inj h
          exact mergeBy_pres (fun e => hinvO _ _ e)
            (fun e _ _ he => hpresO _ _ e he)
            (fun hmk e => hmkO _ _ _ hmk e) hc
      | some n =>
        rw [upsert_person_resolved hp] at h
        cases ro : resolvedName ((dictGet "organization" flds).getD []) with
        | none =>
          rw [upsert_organization_unresolved ro] at h
          obtain rfl := Except.ok.inj h
          refine locations_pres hitA C hinvL hpresL hmkL _ _ _ _ ?_
          rw [connect_record_to_person_entities]
          exact mergeBy_pres (fun e => hinvP _ _ e)
            (fun e _ _ he => hpresP _ _ e he)
            (fun hmk e => hmkP _ _ _ hmk e) hc
        | some m =>
          rw [upsert_organization_resolved ro] at h
          obtain rfl := Except.ok.inj h
          rw [connect_person_to_org_entities]
          refine locations_pres hitA C hinvL hpresL hmkL _ _ _ _ ?_
          rw [connect_record_to_person_entities]
          exact mergeBy_pres (fun e => hinvO _ _ e)
            (fun e _ _ he => hpresO _ _ e he)
            (fun hmk e => hmkO _ _ _ hmk e)
            (mergeBy_pres (fun e => hinvP _ _ e)
              (fun e _ _ he => hpresP _ _ e he)
              (fun hmk e => hmkP _ _ _ hmk e) hc)

/-- Every edge presence invisible to the shared edge ON MATCH clause
survives processing of any row. -/
theorem edgeIn_process_row (hit : Edge → Bool)
    (hinv : ∀ (now : Nat) g, hit (edgeOnMatch now g) = hit g)
    {ru : Rules} {idx : Nat} {desc : String} {s s' : GraphState}
    (h : process_row ru idx desc s = .ok s') (hc : edgeIn s hit) :
    edgeIn s' hit := by
  cases hd : clean_str (some desc) with
  | none =>
    simp only [process_row, hd] at h
    obtain rfl := Except.ok.inj h
    exact hc
  | some d =>
    cases hex : extract_fields d ru.field_patterns with
    | error e =>
      simp only [process_row, hd, hex] at h
      exact Except.noConfusion h
    | ok flds =>
      simp only [process_row, hd, hex] at h
      cases hp : resolvedName ((dictGet "person" flds).getD []) with
      | none =>
        rw [upsert_person_unresolved hp] at h
        cases ro : resolvedName ((dictGet "organization" flds).getD []) with
        | none =>
          rw [upsert_organization_unresolved ro] at h
          obtain rfl := Except.ok.inj h
          exact hc
        | some m =>
          rw [upsert_organization_resolved ro] at h
          obtain rfl := Except.ok.inj h
          exact hc
      | some n =>
        rw [upsert_person_resolved hp] at h
        cases ro : resolvedName ((dictGet "organization" flds).getD []) with
        | none =>
          rw [upsert_organization_unresolved ro] at h
          obtain rfl := Except.ok.inj h
          exact edgeIn_locations hinv _ _ _ (edgeIn_connect_record _ _ hc)
        | some m =>
          rw [upsert_organization_resolved ro] at h
          obtain rfl := Except.ok.inj h
          exact edgeIn_connect_org hinv _ _
            (edgeIn_locations hinv _ _ _ (edgeIn_connect_record _ _ hc))

/-- Record absorption survives processing of a row with a different
record id. -/
theorem RecordAbsorbed_process_row {rid d : String} {ru : Rules} {idx : Nat}
    {desc : String} {s s' : GraphState}
    (hne : rid ≠ ru.record_id_prefix ++ toString (idx + 1))
    (h : process_row ru idx desc s = .ok s')
    (hc : RecordAbsorbed rid d s.records) : RecordAbsorbed rid d s'.records := by
  have hpre : ∀ (t : List RecordNode) (now i : Nat) (d2 : String),
      RecordAbsorbed rid d t →
      RecordAbsorbed rid d (mergeBy
        (recordHit (ru.record_id_prefix ++ toString (idx + 1)))
        (recordOnMatch now d2)
        (recordOnCreate now (ru.record_id_prefix ++ toString (idx + 1)) i d2) t) :=
    fun t now i d2 hc0 =>
      mergeBy_pres (fun x => recordHit_recordOnMatch rid now d2 x)
        (fun x hA hB _ => absurd ((recordHit_key hA).symm.trans (recordHit_key hB)) hne)
        (fun hmk => absurd (recordHit_create_name hmk).symm hne) hc0
  cases hd : clean_str (some desc) with
  | none =>
    simp only [process_row, hd] at h
    obtain rfl := Except.ok.inj h
    exact hc
  | some d2 =>
    cases hex : extract_fields d2 ru.field_patterns with
    | error e =>
      simp only [process_row, hd, hex] at h
      exact Except.noConfusion h
    | ok flds =>
      simp only [process_row, hd, hex] at h
      cases hp : resolvedName ((dictGet "person" flds).getD []) with
      | none =>
        rw [upsert_person_unresolved hp] at h
        cases ro : resolvedName ((dictGet "organization" flds).getD []) with
        | none =>
          rw [upsert_organization_unresolved ro] at h
          obtain rfl := Except.ok.inj h
          exact hpre s.records s.clock (idx + 1) d2 hc
        | some m =>
          rw [upsert_organization_resolved ro] at h
          obtain rfl := Except.ok.inj h
          exact hpre s.records s.clock (idx + 1) d2 hc
      | some n =>
        rw [upsert_person_resolved hp] at h
        cases ro : resolvedName ((dictGet "organization" flds).getD []) with
        | none =>
          rw [upsert_organization_unresolved ro] at h
          obtain rfl := Except.ok.inj h
          rw [connect_person_to_locations_records, connect_record_to_person_records]
          exact hpre s.records s.clock (idx + 1) d2 hc
        | some m =>
          rw [upsert_organization_resolved ro] at h
          obtain rfl := Except.ok.inj h
          rw [connect_person_to_org_records, connect_person_to_locations_records,
            connect_record_to_person_records]
          exact hpre s.records s.clock (idx + 1) d2 hc

/-- Location absorption survives processing of any row. -/
theorem LocAbsorbed_process_row {relMap : List (String × String)} {n0 : String}
    {pf0 : List (String × String)} {ru : Rules} {idx : Nat} {desc : String}
    {s s' : GraphState} (h : process_row ru idx desc s = .ok s')
    (hc : LocAbsorbed relMap n0 pf0 s) : LocAbsorbed relMap n0 pf0 s' := by
  intro fk rt hm L hL
  obtain ⟨h1, h2⟩ := hc fk rt hm L hL
  constructor
  · exact (entAbs_process_row (locHit L) (fun _ => True)
      (fun now q e => locHit_personOnMatch L now q e)
      (fun now a e => locHit_orgOnMatch L now a e)
      (fun now e => locHit_locOnMatch L now e)
      (fun _ _ _ _ => trivial) (fun _ _ _ _ => trivial) (fun _ _ _ => trivial)
      (fun now n2 q hmk => absurd hmk (by simp [locHit, personOnCreate]))
      (fun now m2 a hmk => absurd hmk (by simp [locHit, orgOnCreate]))
      (fun now L2 hmk e => by rw [locHit_create_name hmk])
      h ⟨h1, fun _ _ _ => trivial⟩).1
  · exact edgeIn_process_row (locEdgeHit n0 rt L)
      (fun now g => locEdgeHit_edgeOnMatch n0 rt L now g) h h2

/-- All absorbed conditions of one extracted row survive processing of a
row with a different record id. -/
theorem RowConds_process_row {ru : Rules} {rid d : String}
    {flds : List (String × List (String × String))} {idx2 : Nat} {desc2 : String}
    {s s' : GraphState}
    (hne : rid ≠ ru.record_id_prefix ++ toString (idx2 + 1))
    (h : process_row ru idx2 desc2 s = .ok s')
    (hc : RowConds ru rid d flds s) : RowConds ru rid d flds s' := by
  obtain ⟨hrec, hper, horg⟩ := hc
  refine ⟨RecordAbsorbed_process_row hne h hrec, ?_, ?_⟩
  · intro n hn
    obtain ⟨hPA, hdesc, hloc, hassoc⟩ := hper n hn
    refine ⟨?_, ?_, ?_, ?_⟩
    · exact entAbs_process_row (personHit n)
        (personCond (personParams ((dictGet "person" flds).getD [])))
        (fun now q e => personHit_personOnMatch n now q e)
        (fun now a e => personHit_orgOnMatch n now a e)
        (fun now e => personHit_locOnMatch n now e)
        (fun now q e he => personCond_pres_person he now q)
        (fun now a e he => personCond_pres_org he now a)
        (fun now e he => personCond_pres_loc he now)
        (fun now n2 q hmk e => by rw [personHit_create_name hmk])
        (fun now m2 a hmk => absurd hmk (by simp))
        (fun now L hmk => absurd hmk (by simp))
        h hPA
    · exact edgeIn_process_row (describesHit rid n)
        (fun now g => describesHit_edgeOnMatch rid n now g) h hdesc
    · exact LocAbsorbed_process_row h hloc
    · intro m hm
      exact edgeIn_process_row (assocHit n m)
        (fun now g => assocHit_edgeOnMatch n m now g) h (hassoc m hm)
  · intro m hm
    exact entAbs_process_row (orgHit m)
      (orgCond (clean_str (dictGet "address" ((dictGet "organization" flds).getD []))))
      (fun now q e => orgHit_personOnMatch m now q e)
      (fun now a e => orgHit_orgOnMatch m now a e)
      (fun now e => orgHit_locOnMatch m now e)
      (fun now q e he => orgCond_pres_person he now q)
      (fun now a e he => orgCond_pres_org he now a)
      (fun now e he => orgCond_pres_loc he now)
      (fun now n2 q hmk => absurd hmk (by simp))
      (fun now m2 a hmk e => by rw [orgHit_create_name hmk])
      (fun now L hmk => absurd hmk (by simp))
      h (horg m hm)

/-- Row absorption survives processing of a row with a different index. -/
theorem RowAbsorbed_process_row {ru : Rules} {idx idx2 : Nat}
    {desc desc2 : String} {s s' : GraphState} (hne : idx ≠ idx2)
    (h : process_row ru idx2 desc2 s = .ok s')
    (ha : RowAbsorbed ru idx desc s) : RowAbsorbed ru idx desc s' := by
  unfold RowAbsorbed at ha ⊢
  cases hd : clean_str (some desc) with
  | none => trivial
  | some d =>
    rw [hd] at ha
    have ha2 : ∃ flds, extract_fields d ru.field_patterns = Except.ok flds ∧
        RowConds ru (ru.record_id_prefix ++ toString (idx + 1)) d flds s := ha
    obtain ⟨flds, hex, hcond⟩ := ha2
    exact ⟨flds, hex, RowConds_process_row (record_id_ne hne) h hcond⟩

/-- Row absorption only depends on the store up to timestamp erasure. -/
theorem RowAbsorbed_congr {ru : Rules} {idx : Nat} {desc : String}
    {s t : GraphState} (hst : eraseTs s = eraseTs t)
    (ha : RowAbsorbed ru idx desc s) : RowAbsorbed ru idx desc t := by
  unfold RowAbsorbed at ha ⊢
  cases hd : clean_str (some desc) with
  | none => trivial
  | some d =>
    rw [hd] at ha
    have ha2 : ∃ flds, extract_fields d ru.field_patterns = Except.ok flds ∧
        RowConds ru (ru.record_id_prefix ++ toString (idx + 1)) d flds s := ha
    obtain ⟨flds, hex, hrec, hper, horg⟩ := ha2
    refine ⟨flds, hex, ?_, ?_, ?_⟩
    · exact RecordAbsorbed_transfer (erase_records_eq hst) hrec
    · intro n hn
      obtain ⟨hPA, hdesc, hloc, hassoc⟩ := hper n hn
      refine ⟨PersonAbsorbed_transfer (erase_entities_eq hst) hPA, ?_, ?_, ?_⟩
      · exact exists_of_map_eq (fun g => describesHit_eraseEdgeTs _ n g)
          (erase_edges_eq hst) hdesc
      · exact LocAbsorbed_transfer hst hloc
      · intro m hm
        exact exists_of_map_eq (fun g => assocHit_eraseEdgeTs n m g)
          (erase_edges_eq hst) (hassoc m hm)
    · intro m hm
      exact OrgAbsorbed_transfer (erase_entities_eq hst) (horg m hm)

/-- Rows processed later preserve the absorption of any earlier row. -/
theorem process_rows_pres_absorbed {ru : Rules} :
    ∀ (rows : List String) (k : Nat) {s s' : GraphState},
      process_rows ru rows k s = .ok s' →
      ∀ {idx : Nat} {desc : String}, idx < k →
        RowAbsorbed ru idx desc s → RowAbsorbed ru idx desc s' := by
  intro rows
  induction rows with
  | nil =>
    intro k s s' h idx desc _ ha
    obtain rfl := Except.ok.inj h
    exact ha
  | cons d rest ih =>
    intro k s s' h idx desc hlt ha
    simp only [process_rows] at h
    cases h1 : process_row ru k d s with
    | error e =>
      rw [h1] at h
      exact Except.noConfusion h
    | ok s1 =>
      rw [h1] at h
      exact ih (k + 1) h (Nat.lt_succ_of_lt hlt)
        (RowAbsorbed_process_row (Nat.ne_of_lt hlt) h1 ha)

/-- After a full run every input row is absorbed by the final store. -/
theorem process_rows_absorb_all {ru : Rules} :
    ∀ (rows : List String) (k : Nat) {s s' : GraphState},
      process_rows ru rows k s = .ok s' →
      ∀ (j : Nat) (hj : j < rows.length),
        RowAbsorbed ru (k + j) (rows.get ⟨j, hj⟩) s' := by
  intro rows
  induction rows with
  | nil =>
    intro k s s' h j hj
    exact absurd hj (Nat.not_lt_zero j)
  | cons d rest ih =>
    intro k s s' h j hj
    simp only [process_rows] at h
    cases h1 : process_row ru k d s with
    | error e =>
      rw [h1] at h
      exact Except.noConfusion h
    | ok s1 =>
      rw [h1] at h
      cases j with
      | zero =>
        exact process_rows_pres_absorbed rest (k + 1) h (Nat.lt_succ_self k)
          (process_row_absorbs h1)
      | succ j2 =>
        have hj2 : j2 < rest.length := Nat.lt_of_succ_lt_succ hj
        have hres := ih (k + 1) h j2 hj2
        have heq : (k + 1) + j2 = k + (j2 + 1) := by omega
        rw [heq] at hres
        exact hres

/-- Running the loop over rows all absorbed by `s1`, from any store equal
to `s1` up to erasure, succeeds and stays equal to `s1` up to erasure. -/
theorem process_rows_noop {ru : Rules} {s1 : GraphState} :
    ∀ (rows : List String) (k : Nat) {t : GraphState},
      (∀ (j : Nat) (hj : j < rows.length),
        RowAbsorbed ru (k + j) (rows.get ⟨j, hj⟩) s1) →
      eraseTs t = eraseTs s1 →
      ∃ t', process_rows ru rows k t = .ok t' ∧ eraseTs t' = eraseTs s1 := by
  intro rows
  induction rows with
  | nil =>
    intro k t _ ht
    exact ⟨t, rfl, ht⟩
  | cons d rest ih =>
    intro k t habs ht
    have ha0 : RowAbsorbed ru k d t :=
      RowAbsorbed_congr ht.symm (habs 0 (Nat.succ_pos rest.length))
    obtain ⟨t1, h1, he1⟩ := process_row_absorbed_noop ha0
    have habs2 : ∀ (j : Nat) (hj : j < rest.length),
        RowAbsorbed ru ((k + 1) + j) (rest.get ⟨j, hj⟩) s1 := by
      intro j hj
      have heq : (k + 1) + j = k + (j + 1) := by omega
      rw [heq]
      exact habs (j + 1) (Nat.succ_lt_succ hj)
    obtain ⟨t', h2, he2⟩ := ih (k + 1) habs2 (he1.trans ht)
    refine ⟨t', ?_, he2⟩
    simp only [process_rows, h1]
    exact h2

/-- Claim C1.  Re-running the full input sequence against the store a
first run produced succeeds and refreshes only timestamps: the second run
final store equals the first run store up to erasure of updated_at,
last_seen and the clock, so it holds exactly the same records, entities
and edges with identical counts, and no node or edge is created. -/
theorem C1_reprocessing_idempotent (ru : Rules) (rows : List String)
    (s0 s1 : GraphState) (h1 : runPipeline ru rows s0 = .ok s1) :
    ∃ s2, runPipeline ru rows s1 = .ok s2 ∧ eraseTs s2 = eraseTs s1 ∧
      s2.records.length = s1.records.length ∧
      s2.entities.length = s1.entities.length ∧
      s2.edges.length = s1.edges.length := by
  have habs := process_rows_absorb_all rows 0 h1
  obtain ⟨s2, h2, he⟩ := process_rows_noop rows 0 habs rfl
  refine ⟨s2, h2, he, ?_, ?_, ?_⟩
  · have hl := congrArg List.length (erase_records_eq he)
    simpa using hl
  · have hl := congrArg List.length (erase_entities_eq he)
    simpa using hl
  · have hl := congrArg List.length (erase_edges_eq he)
    simpa using hl

/-- Witness for C1 at a concrete one row input: the first run from the
empty store produces the stored record, person and DESCRIBES edge, and
the theorem applies to give a successful second run equal up to erasure
with identical counts. -/
theorem C1_witness :
    runPipeline c1Rules ["NAME: John"] emptyGraph = .ok c1State ∧
    ∃ s2, runPipeline c1Rules ["NAME: John"] c1State = .ok s2 ∧
      eraseTs s2 = eraseTs c1State ∧
      s2.records.length = c1State.records.length ∧
      s2.entities.length = c1State.entities.length ∧
      s2.edges.length = c1State.edges.length :=
  ⟨by decide, C1_reprocessing_idempotent c1Rules ["NAME: John"] emptyGraph c1State
    (by decide)⟩

end DescGraph
